import Mathlib

/-!
Verification of the event-discovery and information-extraction core of the
tournabot repository (file src/tournabot/smoothcomp.py), shallowly embedded
in Lean.  Python strings are modelled as Lean strings over their character
lists (the ASCII fragment that the source manipulates); Python datetimes are
modelled as tuples of naturals; regular-expression scans from the source are
translated into explicit character-list scanners that mirror the behaviour of
the concrete patterns used by the code.  DOM traversal (BeautifulSoup) is not
re-implemented: functions that consume parsed-HTML nodes receive the textual
payloads those nodes would supply as explicit inputs, exactly at the boundary
where the source converts nodes to strings.
-/

namespace Tournabot

/-! ### Character and string primitives modelling Python operations -/

/-- The characters Python's regular-expression class matching whitespace and
the default argument of the string strip method recognise (ASCII fragment). -/
def isPyWs (c : Char) : Bool :=
  c == ' ' || c == '\t' || c == '\n' || c == '\r' || c == Char.ofNat 11 || c == Char.ofNat 12

/-- Does the list start with the given literal sequence? -/
def listStartsWith : List Char → List Char → Bool
  | _, [] => true
  | [], _ :: _ => false
  | a :: as, b :: bs => a == b && listStartsWith as bs

/-- Does the haystack contain the needle as a contiguous subsequence?
Models the Python substring containment operator on strings. -/
def containsSeq : List Char → List Char → Bool
  | [], needle => needle.isEmpty
  | h :: t, needle => listStartsWith (h :: t) needle || containsSeq t needle

/-- Python substring containment: needle appears contiguously in hay. -/
def strContains (hay needle : String) : Bool :=
  containsSeq hay.data needle.data

/-- Drop a literal character sequence from the front of a list, or fail. -/
def dropLit : List Char → List Char → Option (List Char)
  | cs, [] => some cs
  | [], _ :: _ => none
  | c :: cs, p :: ps => if c == p then dropLit cs ps else none

/-- Case-insensitive character comparison (ASCII). -/
def ciEq (a b : Char) : Bool := a.toLower == b.toLower

/-- Drop a literal character sequence case-insensitively, or fail. -/
def dropLitCi : List Char → List Char → Option (List Char)
  | cs, [] => some cs
  | [], _ :: _ => none
  | c :: cs, p :: ps => if ciEq c p then dropLitCi cs ps else none

/-- Python lstrip with default whitespace argument. -/
def pyLStrip (cs : List Char) : List Char := cs.dropWhile isPyWs

/-- Python strip with default whitespace argument. -/
def pyStripL (cs : List Char) : List Char :=
  ((cs.dropWhile isPyWs).reverse.dropWhile isPyWs).reverse

/-- Python strip on strings. -/
def pyStrip (s : String) : String := String.mk (pyStripL s.data)

/-- Python lower on strings (ASCII model). -/
def pyLower (s : String) : String := String.mk (s.data.map Char.toLower)

/-- Worker for the whitespace-collapsing substitution; the flag records
whether the previous character belonged to a whitespace run. -/
def collapseWsGo : List Char → Bool → List Char
  | [], _ => []
  | c :: rest, inWs =>
    if isPyWs c then
      if inWs then collapseWsGo rest true
      else ' ' :: collapseWsGo rest true
    else c :: collapseWsGo rest false

/-- The Python regex substitution replacing every maximal run of whitespace
by a single space. -/
def collapseWs (cs : List Char) : List Char := collapseWsGo cs false

/-- Lexicographic comparison of character lists by code point, the ordering
Python uses to compare strings. -/
def strLeL : List Char → List Char → Bool
  | [], _ => true
  | _ :: _, [] => false
  | a :: as, b :: bs =>
    if a.toNat < b.toNat then true
    else if b.toNat < a.toNat then false
    else strLeL as bs

/-- Python string comparison. -/
def strLe (a b : String) : Bool := strLeL a.data b.data

/-! ### Datetimes

Python datetime values produced by the source (via strptime of pure dates)
carry a year, month and day with the time fields zero; the sentinel
datetime.max additionally has nonzero time-of-day fields, which keeps it
strictly above every parsed date.  We model the fields that can influence a
comparison performed by the source. -/

structure PyDT where
  year : Nat
  month : Nat
  day : Nat
  hour : Nat
  minute : Nat
deriving DecidableEq, Repr

/-- The sentinel datetime.max used by the sort keys of the source. -/
def dtMax : PyDT := ⟨9999, 12, 31, 23, 59⟩

/-- Strict chronological comparison of datetimes (lexicographic on fields). -/
def dtLt (a b : PyDT) : Bool :=
  a.year < b.year ||
    (a.year == b.year && (a.month < b.month ||
      (a.month == b.month && (a.day < b.day ||
        (a.day == b.day && (a.hour < b.hour ||
          (a.hour == b.hour && a.minute < b.minute)))))))

/-- Non-strict chronological comparison of datetimes. -/
def dtLe (a b : PyDT) : Bool := dtLt a b || a == b

/-- Python date objects (the result of the date method on a datetime). -/
structure PyDate where
  year : Nat
  month : Nat
  day : Nat
deriving DecidableEq, Repr

/-- The date part of a datetime. -/
def PyDT.dateOf (d : PyDT) : PyDate := ⟨d.year, d.month, d.day⟩

/-- Strict comparison of dates. -/
def dateLt (a b : PyDate) : Bool :=
  a.year < b.year ||
    (a.year == b.year && (a.month < b.month ||
      (a.month == b.month && a.day < b.day)))

/-! ### Stable sorting

The source sorts with the Python list sort method, a stable sort; Mathlib's
insertion sort is stable, so sorting by the Boolean key comparison below is a
faithful model whenever the comparison is a total preorder. -/

/-- Stable sort by a Boolean comparison, modelling the Python sort method. -/
def pySort (le : α → α → Bool) (l : List α) : List α :=
  List.insertionSort (fun a b => le a b = true) l

/-! ### URL canonicalization (the static method named canonical event url) -/

/-- The part of a string before its first question mark: Python split on the
question mark, first component. -/
def takeQ (cs : List Char) : List Char := cs.takeWhile (fun c => !(c == '?'))

/-- Python rstrip of trailing slashes. -/
def rstripSlash (cs : List Char) : List Char :=
  (cs.reverse.dropWhile (fun c => c == '/')).reverse

/-- Attempt to match, at the head of the list, the anchored regular expression
from the source consisting of: the literal http, an optional s, the literal
colon-slash-slash, one or more non-slash host characters, a slash, an optional
two-letter locale segment followed by a slash, the literal event keyword, a
slash, and one or more digits; matching is case-insensitive, as the source
compiles the pattern with the ignore-case flag.  Returns the length of the
matched text, the capture group being the match itself. -/
def matchCanonAt (cs : List Char) : Option Nat :=
  match dropLitCi cs "http".data with
  | none => none
  | some r1 =>
    let sLen := match r1 with
      | c :: _ => if ciEq c 's' then 1 else 0
      | [] => 0
    let r2 := r1.drop sLen
    match dropLit r2 "://".data with
    | none => none
    | some r3 =>
      let host := r3.takeWhile (fun c => !(c == '/'))
      if host.isEmpty then none
      else
        match r3.drop host.length with
        | '/' :: r4 =>
          let pre := 4 + sLen + 3 + host.length + 1
          let withLocale : Option Nat :=
            match r4 with
            | a :: b :: '/' :: r5 =>
              if a.isAlpha && b.isAlpha then
                match dropLitCi r5 "event/".data with
                | none => none
                | some r6 =>
                  let ds := r6.takeWhile Char.isDigit
                  if ds.isEmpty then none else some (pre + 3 + 6 + ds.length)
              else none
            | _ => none
          match withLocale with
          | some n => some n
          | none =>
            match dropLitCi r4 "event/".data with
            | none => none
            | some r6 =>
              let ds := r6.takeWhile Char.isDigit
              if ds.isEmpty then none else some (pre + 6 + ds.length)
        | _ => none

/-- Leftmost search for the canonical-event pattern, as the Python regex
search function does, returning the matched slice of the input. -/
def canonSearch : List Char → Option (List Char)
  | [] => none
  | c :: rest =>
    match matchCanonAt (c :: rest) with
    | some n => some ((c :: rest).take n)
    | none => canonSearch rest

/-- The source's static canonicalizer: strip the query string and trailing
slashes, then return the first match of the canonical-event pattern if any,
otherwise the stripped URL itself. -/
def canonicalEventUrl (url : String) : String :=
  let stripped := rstripSlash (takeQ url.data)
  match canonSearch stripped with
  | some m => String.mk m
  | none => String.mk stripped

/-! ### Event id extraction and construction -/

/-- Attempt to match, at the head of the list, the pattern consisting of the
literal slash-event-slash followed by one or more digits, returning the
digits (the capture group of the source's pattern). -/
def matchEventIdAt (cs : List Char) : Option (List Char) :=
  match dropLit cs "/event/".data with
  | none => none
  | some rest =>
    let ds := rest.takeWhile Char.isDigit
    if ds.isEmpty then none else some ds

/-- Leftmost search for the event-id pattern. -/
def searchEventId : List Char → Option (List Char)
  | [] => none
  | c :: rest =>
    match matchEventIdAt (c :: rest) with
    | some m => some m
    | none => searchEventId rest

/-- The source's static method extracting an event id from a URL: the digits
of the first slash-event-slash-digits segment, or the whole input when the
pattern does not occur. -/
def eventIdFromUrl (url : String) : String :=
  match searchEventId url.data with
  | some ds => String.mk ds
  | none => url

/-- The source's static method building an event URL from an id. -/
def eventUrlFromId (event_id : String) : String :=
  "https://smoothcomp.com/en/event/" ++ event_id

/-! ### Date extraction (the static method extracting dates from text)

The source scans a text blob with two regular expressions, one for ISO dates
made of four digits, a dash, two digits, a dash and two digits, and one for
long-form dates made of three to nine letters, whitespace, one or two digits,
a comma, optional whitespace and four digits; every fragment found is then
handed to strptime with the ISO format, the full-month-name format and the
abbreviated-month-name format in that order, appending the first success and
skipping fragments no format accepts. -/

/-- ASCII letter. -/
def isAsciiLetter (c : Char) : Bool :=
  ('a'.toNat ≤ c.toNat && c.toNat ≤ 'z'.toNat) || ('A'.toNat ≤ c.toNat && c.toNat ≤ 'Z'.toNat)

/-- Does an ISO-date-shaped fragment start here: four digits, a dash, two
digits, a dash, two digits? -/
def isIsoAt : List Char → Bool
  | a :: b :: c :: d :: e :: f :: g :: h :: i :: j :: _ =>
    a.isDigit && b.isDigit && c.isDigit && d.isDigit && e == '-' &&
      f.isDigit && g.isDigit && h == '-' && i.isDigit && j.isDigit
  | _ => false

/-- All matches of the ISO date pattern, scanning left to right and resuming
after each match, as the Python findall function does; the fuel argument is
the length of the scanned list. -/
def findIsoGo : Nat → List Char → List (List Char)
  | 0, _ => []
  | _, [] => []
  | fuel + 1, c :: rest =>
    if isIsoAt (c :: rest) then
      (c :: rest).take 10 :: findIsoGo fuel ((c :: rest).drop 10)
    else findIsoGo fuel rest

/-- All ISO date fragments of a character list. -/
def findIso (cs : List Char) : List (List Char) := findIsoGo cs.length cs

/-- Length of the long-form date match starting here, if any: a maximal run
of three to nine letters, mandatory whitespace, one or two digits followed by
a comma, optional whitespace, then four digits.  The quantifiers of the
source's pattern admit no other decomposition because letters, whitespace and
digits are disjoint character classes. -/
def matchLongAt (cs : List Char) : Option Nat :=
  let ls := cs.takeWhile isAsciiLetter
  if 3 ≤ ls.length && ls.length ≤ 9 then
    let r1 := cs.drop ls.length
    let ws := r1.takeWhile isPyWs
    if ws.isEmpty then none
    else
      let r2 := r1.drop ws.length
      let ds := r2.takeWhile Char.isDigit
      if 1 ≤ ds.length && ds.length ≤ 2 then
        match r2.drop ds.length with
        | ',' :: r3 =>
          let ws2 := r3.takeWhile isPyWs
          match r3.drop ws2.length with
          | y1 :: y2 :: y3 :: y4 :: _ =>
            if y1.isDigit && y2.isDigit && y3.isDigit && y4.isDigit then
              some (ls.length + ws.length + ds.length + 1 + ws2.length + 4)
            else none
          | _ => none
        | _ => none
      else none
  else none

/-- All matches of the long-form date pattern, scanning left to right and
resuming after each match. -/
def findLongGo : Nat → List Char → List (List Char)
  | 0, _ => []
  | _, [] => []
  | fuel + 1, c :: rest =>
    match matchLongAt (c :: rest) with
    | some n => (c :: rest).take n :: findLongGo fuel ((c :: rest).drop n)
    | none => findLongGo fuel rest

/-- All long-form date fragments of a character list. -/
def findLong (cs : List Char) : List (List Char) := findLongGo cs.length cs

/-- Numeric value of a decimal digit character. -/
def digitVal (c : Char) : Nat := c.toNat - '0'.toNat

/-- Is the year a Gregorian leap year, as the Python calendar decides. -/
def isLeap (y : Nat) : Bool := y % 4 == 0 && (y % 100 != 0 || y % 400 == 0)

/-- Number of days of a month, as the Python datetime validation uses. -/
def daysInMonth (m y : Nat) : Nat :=
  if m == 2 then (if isLeap y then 29 else 28)
  else if m == 4 || m == 6 || m == 9 || m == 11 then 30
  else 31

/-- strptime with the ISO format: the fragment must be exactly four digits, a
dash, two digits, a dash and two digits, and the values must form a valid
date (month one to twelve, day within the month, year at least one). -/
def parseIso : List Char → Option PyDT
  | [a, b, c, d, '-', e, f, '-', g, h] =>
    if a.isDigit && b.isDigit && c.isDigit && d.isDigit &&
        e.isDigit && f.isDigit && g.isDigit && h.isDigit then
      let y := ((digitVal a * 10 + digitVal b) * 10 + digitVal c) * 10 + digitVal d
      let m := digitVal e * 10 + digitVal f
      let dd := digitVal g * 10 + digitVal h
      if 1 ≤ y && 1 ≤ m && m ≤ 12 && 1 ≤ dd && dd ≤ daysInMonth m y then
        some ⟨y, m, dd, 0, 0⟩
      else none
    else none
  | _ => none

/-- The full month names with their numbers, lower-cased as strptime matches
them case-insensitively. -/
def monthsFull : List (String × Nat) :=
  [("january", 1), ("february", 2), ("march", 3), ("april", 4), ("may", 5),
   ("june", 6), ("july", 7), ("august", 8), ("september", 9), ("october", 10),
   ("november", 11), ("december", 12)]

/-- The abbreviated month names with their numbers. -/
def monthsAbbr : List (String × Nat) :=
  [("jan", 1), ("feb", 2), ("mar", 3), ("apr", 4), ("may", 5), ("jun", 6),
   ("jul", 7), ("aug", 8), ("sep", 9), ("oct", 10), ("nov", 11), ("dec", 12)]

/-- Look a lower-cased name up in a month table. -/
def monthLookup : List (String × Nat) → List Char → Option Nat
  | [], _ => none
  | (nm, v) :: rest, cs => if nm.data == cs then some v else monthLookup rest cs

/-- strptime with a month-name format: the whole letter run must equal a
month name case-insensitively (strptime turns each whitespace of the format
into a one-or-more whitespace match, so the comma must be followed by at
least one whitespace character even though the scanning pattern required
none), the day directive accepts one or two digits with value one to
thirty-one, the year is four digits, nothing may remain, and the values must
form a valid date. -/
def parseLongWith (months : List (String × Nat)) (cs : List Char) : Option PyDT :=
  let ls := cs.takeWhile isAsciiLetter
  match monthLookup months (ls.map Char.toLower) with
  | none => none
  | some m =>
    let r1 := cs.drop ls.length
    let ws := r1.takeWhile isPyWs
    if ws.isEmpty then none
    else
      let r2 := r1.drop ws.length
      let ds := r2.takeWhile Char.isDigit
      let day := ds.foldl (fun acc c => acc * 10 + digitVal c) 0
      if 1 ≤ ds.length && ds.length ≤ 2 && 1 ≤ day && day ≤ 31 then
        match r2.drop ds.length with
        | ',' :: r3 =>
          let ws2 := r3.takeWhile isPyWs
          if ws2.isEmpty then none
          else
            match r3.drop ws2.length with
            | [y1, y2, y3, y4] =>
              if y1.isDigit && y2.isDigit && y3.isDigit && y4.isDigit then
                let y := ((digitVal y1 * 10 + digitVal y2) * 10 + digitVal y3) * 10
                  + digitVal y4
                if 1 ≤ y && day ≤ daysInMonth m y then some ⟨y, m, day, 0, 0⟩
                else none
              else none
            | _ => none
        | _ => none
      else none

/-- Try the three strptime formats in the order of the source. -/
def parseAnyDate (cs : List Char) : Option PyDT :=
  match parseIso cs with
  | some d => some d
  | none =>
    match parseLongWith monthsFull cs with
    | some d => some d
    | none => parseLongWith monthsAbbr cs

/-- The source's static method extracting dates from text: collect the parses
of every fragment either pattern finds, then sort ascending. -/
def extractDatesFromText (text : String) : List PyDT :=
  pySort dtLe ((findIso text.data ++ findLong text.data).filterMap parseAnyDate)

/-! ### Country and location helpers -/

/-- A word character in the sense of the regex word-boundary assertion. -/
def isWordChar (c : Char) : Bool := c.isAlpha || c.isDigit || c == '_'

/-- Does the needle occur here, not followed by a word character? -/
def wordMatchesHere (cs needle : List Char) : Bool :=
  match dropLit cs needle with
  | none => false
  | some [] => true
  | some (d :: _) => !isWordChar d

/-- Scan for a word-bounded occurrence of the needle; the flag records
whether the previous character was a word character. -/
def wordBoundedGo (needle : List Char) : List Char → Bool → Bool
  | [], _ => false
  | c :: rest, prevW =>
    (!prevW && wordMatchesHere (c :: rest) needle) ||
      wordBoundedGo needle rest (isWordChar c)

/-- Word-bounded substring search, modelling a regex search for the needle
between two word-boundary assertions. -/
def wordBounded (hay needle : List Char) : Bool := wordBoundedGo needle hay false

/-- The source's static country test: case-insensitive substring match on
the country name, with token-boundary abbreviations accepted for the
hard-coded Philippines special case. -/
def countryInText (text country : String) : Bool :=
  let lowered := pyLower text
  let country_l := pyLower country
  strContains lowered country_l ||
    (country_l == "philippines" &&
      (wordBounded lowered.data "philippines".data ||
        wordBounded lowered.data "phl".data ||
        wordBounded lowered.data "ph".data))

/-- The token loop of the source's location extractor. -/
def extractLocationGo : List String → String → String
  | [], _ => ""
  | tok :: rest, text =>
    if strContains text tok then text.take 120 else extractLocationGo rest text

/-- The source's static location extractor: the first one hundred and twenty
characters of the blob when it contains one of four fixed tokens, matched
case-sensitively, else empty. -/
def extractLocation (text : String) : String :=
  extractLocationGo ["city", "venue", "location", "philippines"] text

/-! ### Name derivation from a URL -/

/-- Worker collapsing every maximal run of characters satisfying the
predicate into a single space. -/
def collapseRunsGo (p : Char → Bool) : List Char → Bool → List Char
  | [], _ => []
  | c :: rest, inRun =>
    if p c then
      if inRun then collapseRunsGo p rest true
      else ' ' :: collapseRunsGo p rest true
    else c :: collapseRunsGo p rest false

/-- Python title casing (ASCII model): a letter is upper-cased when the
previous character is not a letter, lower-cased otherwise. -/
def pyTitleGo : List Char → Bool → List Char
  | [], _ => []
  | c :: rest, prevAlpha =>
    (if c.isAlpha then (if prevAlpha then c.toLower else c.toUpper) else c) ::
      pyTitleGo rest c.isAlpha

/-- The segment after the last slash, as Python rsplit on the slash takes. -/
def lastSegment (cs : List Char) : List Char :=
  (cs.reverse.takeWhile (fun c => !(c == '/'))).reverse

/-- The source's static method deriving a display name from a URL: the last
path segment of the slash-stripped URL, rendered as an event-number label
when it is all digits, else de-dashed, stripped and title-cased with a fixed
fallback when empty. -/
def nameFromUrl (url : String) : String :=
  let tail := lastSegment (rstripSlash url.data)
  if !tail.isEmpty && tail.all Char.isDigit then "Event " ++ String.mk tail
  else
    let replaced := collapseRunsGo (fun c => c == '-' || c == '_') tail false
    let titled := pyTitleGo (pyStripL replaced) false
    if titled.isEmpty then "Unnamed event" else String.mk titled

/-! ### The Event record and primary discovery -/

/-- The Event dataclass of the models module. -/
structure Event where
  id : String
  name : String
  url : String
  location : String := ""
  country : String := ""
  start_date : Option PyDT := none
  end_date : Option PyDT := none
deriving DecidableEq, Repr

/-- One entry of the candidate map the HTML locator hands to event discovery:
a normalized URL together with the accumulated name payload and context
snippets.  The locator itself walks parsed HTML, so its output is taken as
the input of the discovery model, exactly the dictionary the source iterates
over. -/
structure Candidate where
  url : String
  rawName : String
  contexts : List String
deriving Repr

/-- The context blob of a candidate: its context snippets joined by single
spaces, the string every per-candidate helper of the discovery loop reads. -/
def candBlob (c : Candidate) : String := String.intercalate " " c.contexts

/-- The country flag the discovery loop computes for a candidate. -/
def candInCountry (country : String) (c : Candidate) : Bool :=
  countryInText (candBlob c) country

/-- The optional event year of a candidate: the year of the first extracted
date. -/
def candYear (c : Candidate) : Option Nat :=
  (extractDatesFromText (candBlob c))[0]?.map PyDT.year

/-- The event built from a candidate inside the discovery loop. -/
def eventOfCandidate (country : String) (c : Candidate) : Event :=
  let blob := candBlob c
  let raw_name := pyStrip c.rawName
  let name := if raw_name == "" then nameFromUrl c.url else raw_name
  let parsed := extractDatesFromText blob
  let in_country := countryInText blob country
  { id := eventIdFromUrl c.url
    name := name
    url := c.url
    location := extractLocation blob
    country := if in_country then country else ""
    start_date := parsed[0]?
    end_date := parsed[1]? }

/-- Is the candidate dropped by the past-event filter: it has a parseable
start date strictly before today. -/
def candidateIsPast (today : PyDate) (c : Candidate) : Bool :=
  match extractDatesFromText (candBlob c) with
  | d :: _ => dateLt d.dateOf today
  | [] => false

/-- The candidates surviving the past-event filter. -/
def survivorsOf (today : PyDate) (cs : List Candidate) : List Candidate :=
  cs.filter (fun c => !candidateIsPast today c)

/-- The six accumulation lists of the discovery loop, in declaration order of
the source: strict country, strict country with unknown year, strict country
with another year, relaxed, relaxed with unknown year, relaxed with another
year. -/
structure Buckets where
  b1 : List Event
  b2 : List Event
  b3 : List Event
  b4 : List Event
  b5 : List Event
  b6 : List Event
deriving Repr

/-- The bucket index the if-elif chain of the source assigns, given the
country flag and the optional event year. -/
def bucketIndex (year : Nat) (in_country : Bool) (event_year : Option Nat) : Nat :=
  if in_country && event_year == some year then 1
  else if in_country && event_year == none then 2
  else if in_country then 3
  else if event_year == some year then 4
  else if event_year == none then 5
  else 6

/-- The discovery loop: filter past candidates, classify the rest through
the if-elif chain of the source into the six buckets, preserving candidate
order. -/
def classifyCandidates (year : Nat) (country : String) (today : PyDate) :
    List Candidate → Buckets
  | [] => ⟨[], [], [], [], [], []⟩
  | c :: rest =>
    let bs := classifyCandidates year country today rest
    if candidateIsPast today c then bs
    else
      let e := eventOfCandidate country c
      let ic := candInCountry country c
      let ey := candYear c
      if ic && ey == some year then { bs with b1 := e :: bs.b1 }
      else if ic && ey == none then { bs with b2 := e :: bs.b2 }
      else if ic then { bs with b3 := e :: bs.b3 }
      else if ey == some year then { bs with b4 := e :: bs.b4 }
      else if ey == none then { bs with b5 := e :: bs.b5 }
      else { bs with b6 := e :: bs.b6 }

/-- The declarative form of one bucket: the survivors whose bucket index is
the given one, in candidate order, mapped to their events. -/
def bucketOfList (year : Nat) (country : String) (today : PyDate) (i : Nat)
    (cs : List Candidate) : List Event :=
  ((survivorsOf today cs).filter
    (fun c => bucketIndex year (candInCountry country c) (candYear c) == i)).map
    (eventOfCandidate country)

/-- The sort key comparison of the discovery groups: start date with the
maximal datetime substituted for a missing one, then the lower-cased name. -/
def sortKeyLe (a b : Event) : Bool :=
  let da := a.start_date.getD dtMax
  let db := b.start_date.getD dtMax
  if dtLt da db then true
  else if dtLt db da then false
  else strLe (pyLower a.name) (pyLower b.name)

/-- What primary discovery decides: a list of events, or a fall-through to
the mirror source. -/
inductive FetchOutcome
  | primary (events : List Event)
  | useMirror
deriving DecidableEq, Repr

/-- The decision stage of the source's event fetching, after the HTTP fetch
and candidate collection: bucket the candidates, sort every bucket, then
apply the cascade returning the first non-empty tier and falling through to
the mirror source when the first five buckets are all empty. -/
def fetchEventsCore (candidates : List Candidate) (year : Nat) (country : String)
    (today : PyDate) : FetchOutcome :=
  let bs := classifyCandidates year country today candidates
  let s1 := pySort sortKeyLe bs.b1
  let s2 := pySort sortKeyLe bs.b2
  let s3 := pySort sortKeyLe bs.b3
  let s4 := pySort sortKeyLe bs.b4
  let s5 := pySort sortKeyLe bs.b5
  if !s1.isEmpty || !s2.isEmpty then .primary (s1 ++ s2)
  else if !s3.isEmpty then .primary s3
  else if !s4.isEmpty || !s5.isEmpty then .primary (s4 ++ s5)
  else .useMirror

/-! ### The mirror (fallback) source -/

/-- One hyperlink row of the mirror listing page, at the boundary where the
source has already converted DOM nodes to strings: the normalized event URL
(empty when the href fails the event pattern, in which case the row is
skipped), the text of the enclosing row and the extracted display name. -/
structure Row where
  url : String
  rowText : String
  name : String
deriving Repr

/-- Ordered-dictionary update with Python semantics: an existing key keeps
its position and receives the new value, a new key is appended. -/
def dictUpd (m : List (String × Event)) (k : String) (v : Event) :
    List (String × Event) :=
  if m.any (fun p => p.1 == k) then
    m.map (fun p => if p.1 == k then (k, v) else p)
  else m ++ [(k, v)]

/-- The five accumulation dictionaries of the mirror loop. -/
structure FallbackState where
  allFound : List (String × Event)
  yearFound : List (String × Event)
  countryFound : List (String × Event)
  countryYearFound : List (String × Event)
  strictFound : List (String × Event)

/-- One iteration of the mirror loop over a link row. -/
def fallbackStep (year : Nat) (country : String) (today : PyDate)
    (st : FallbackState) (r : Row) : FallbackState :=
  if r.url == "" then st
  else
    let lower := pyLower r.rowText
    let in_country := strContains lower (pyLower country) || countryInText lower country
    let dates := extractDatesFromText r.rowText
    let event : Event :=
      { id := eventIdFromUrl r.url
        name := r.name
        url := r.url
        location := extractLocation r.rowText
        country := if in_country then country else ""
        start_date := dates[0]?
        end_date := dates[1]? }
    let all' := dictUpd st.allFound r.url event
    let firstYearOk := match dates with
      | d :: _ => d.year == year
      | [] => false
    let yr' := if firstYearOk then dictUpd st.yearFound r.url event else st.yearFound
    if in_country then
      let co' := dictUpd st.countryFound r.url event
      let cy' := if firstYearOk then dictUpd st.countryYearFound r.url event
        else st.countryYearFound
      let strictOk := match dates with
        | [] => true
        | d :: _ => d.year == year && !dateLt d.dateOf today
      let strict' := if strictOk then dictUpd st.strictFound r.url event
        else st.strictFound
      ⟨all', yr', co', cy', strict'⟩
    else ⟨all', yr', st.countryFound, st.countryYearFound, st.strictFound⟩

/-- The mirror fetch of the source, after the HTTP fetch, over the link rows
of the page.  The source defaults a missing today argument to the current
date on entry, which makes its later branch testing that argument against
None unreachable; the translation therefore contains only the reachable
branches.  The now argument supplies the current date the source would read
from the clock. -/
def fallbackCore (rows : List Row) (year : Nat) (country : String)
    (todayParam : Option PyDate) (now : PyDate) : List Event :=
  let today := todayParam.getD now
  let st := rows.foldl (fallbackStep year country today)
    ⟨[], [], [], [], []⟩
  let chosen :=
    if !st.strictFound.isEmpty then st.strictFound
    else if !st.countryYearFound.isEmpty then st.countryYearFound
    else if !st.yearFound.isEmpty then st.yearFound
    else if !st.countryFound.isEmpty then st.countryFound
    else st.allFound
  pySort sortKeyLe (chosen.map (fun p => p.2))

/-! ### Name normalization and search scoring -/

/-- The source's name normalizer: collapse whitespace, strip, lower-case,
then delete every character that is not a lower-case letter, digit or
space. -/
def normalizeName (text : String) : String :=
  let stripped := pyStrip (String.mk (collapseWs text.data))
  let lowered := pyLower stripped
  String.mk (lowered.data.filter
    (fun c => ('a'.toNat ≤ c.toNat && c.toNat ≤ 'z'.toNat) || c.isDigit || c == ' '))

/-- Lower-case letter or digit, the token characters of the query split. -/
def isLowerAlnum (c : Char) : Bool :=
  ('a'.toNat ≤ c.toNat && c.toNat ≤ 'z'.toNat) || c.isDigit

/-- Worker splitting a list into maximal runs of characters satisfying the
predicate; the accumulator holds the current run reversed. -/
def wordsByGo (p : Char → Bool) : List Char → List Char → List (List Char)
  | [], acc => if acc.isEmpty then [] else [acc.reverse]
  | c :: rest, acc =>
    if p c then wordsByGo p rest (c :: acc)
    else if acc.isEmpty then wordsByGo p rest []
    else acc.reverse :: wordsByGo p rest []

/-- Maximal runs of characters satisfying the predicate, modelling a regex
split on the complementary class with empty pieces discarded. -/
def wordsBy (p : Char → Bool) (cs : List Char) : List (List Char) :=
  wordsByGo p cs []

/-- The word tokens of a normalized query. -/
def queryTokens (query : String) : List String :=
  (wordsBy isLowerAlnum query.data).map String.mk

/-- The score the search loop assigns to one event: one thousand for an
exact normalized match, else six hundred when the query is a substring of
the name, else two hundred and fifty when the non-empty name is a substring
of the query; plus thirty per query token contained in the normalized name
and forty when the year string occurs in the raw name. -/
def scoreEvent (query : String) (tokens : List String) (year : Nat) (e : Event) : Nat :=
  let name_raw := e.name
  let name := normalizeName name_raw
  let base :=
    if name == query then 1000
    else if strContains name query then 600
    else if !(name == "") && strContains query name then 250
    else 0
  let tokScore := 30 * (tokens.filter (fun t => strContains name t)).length
  let yearScore := if strContains name_raw (toString year) then 40 else 0
  base + tokScore + yearScore

/-- The sort comparison of the scored list: descending score, then start
date with the maximal datetime for a missing one, then lower-cased name. -/
def scoredLe (a b : Nat × Event) : Bool :=
  if b.1 < a.1 then true
  else if a.1 < b.1 then false
  else sortKeyLe a.2 b.2

/-- The scoring, filtering, ordering and truncation stage of the search by
name, applied to the merged candidate list. -/
def searchRank (events : List Event) (name_query : String) (year : Nat)
    (limit : Nat) : List Event :=
  let query := normalizeName name_query
  if query == "" then events.take limit
  else
    let tokens := queryTokens query
    let scored := events.filterMap (fun e =>
      let s := scoreEvent query tokens year e
      if 0 < s then some (s, e) else none)
    ((pySort scoredLe scored).take limit).map (fun p => p.2)

/-- The URL-keyed union of the primary discovery result and the mirror sweep
feeding the search: primary events first, each fallback event added only
when its URL is new. -/
def mergeByUrl (primary fb : List Event) : List Event :=
  let m1 := primary.foldl (fun m e => dictUpd m e.url e) []
  let m2 := fb.foldl
    (fun m e => if m.any (fun p => p.1 == e.url) then m else m ++ [(e.url, e)]) m1
  m2.map (fun p => p.2)

/-! ### Competitor extraction: merge and deduplication

The five extraction strategies walk parsed HTML; what each strategy feeds
the shared deduplication accumulator is a stream of candidate records whose
field values have already been computed from the page.  The model receives
those streams as inputs and reproduces, per strategy, exactly the key
computation, the seen-set check and the record construction of the source:
the schedule, profile, script and block strategies key on the already
defaulted field values, while the generic-table strategy keys on the raw
values, substituting the empty string for a missing field in the key but the
placeholder in the stored record. -/

/-- The CompetitorSchedule dataclass of the models module. -/
structure CompetitorSchedule where
  competitor_name : String
  academy : String
  division : String := ""
  bracket : String := ""
  opponent : String := "TBD"
  match_time : String := "TBD"
  mat : String := "TBD"
  source_url : String := ""
  tags : List String := []
deriving DecidableEq, Repr

/-- The values one strategy computed for one candidate record before the
seen-set check. -/
structure ExtractCand where
  competitor_name : String
  academy : String
  division : String
  bracket : String := ""
  opponent : String
  match_time : String
  mat : String
deriving DecidableEq, Repr

/-- The deduplication key type: competitor name, division, match time, mat. -/
abbrev SeenKey := String × String × String × String

/-- The four-tuple a stored record exposes. -/
def keyOf (r : CompetitorSchedule) : SeenKey :=
  (r.competitor_name, r.division, r.match_time, r.mat)

/-- Python truthiness defaulting of a string field to the placeholder. -/
def orTBD (s : String) : String := if s == "" then "TBD" else s

/-- Accumulator of the merge: the seen keys and the merged rows so far. -/
structure MergeAcc where
  seen : List SeenKey
  rows : List CompetitorSchedule

/-- One candidate of the schedule, profile, script or block strategies: the
key is the four already-defaulted field values and the record stores the
same values. -/
def stepConsistent (source_url : String) (acc : MergeAcc) (c : ExtractCand) : MergeAcc :=
  let key : SeenKey := (c.competitor_name, c.division, c.match_time, c.mat)
  if acc.seen.contains key then acc
  else
    let r : CompetitorSchedule :=
      { competitor_name := c.competitor_name
        academy := c.academy
        division := c.division
        bracket := c.bracket
        opponent := c.opponent
        match_time := c.match_time
        mat := c.mat
        source_url := source_url }
    { seen := key :: acc.seen, rows := acc.rows ++ [r] }

/-- One candidate of the generic-table strategy: the key uses the raw
division, match time and mat (empty when undetected), while the stored
record substitutes the placeholder for an empty one. -/
def stepTable (source_url : String) (acc : MergeAcc) (c : ExtractCand) : MergeAcc :=
  let key : SeenKey := (c.competitor_name, c.division, c.match_time, c.mat)
  if acc.seen.contains key then acc
  else
    let r : CompetitorSchedule :=
      { competitor_name := c.competitor_name
        academy := c.academy
        division := orTBD c.division
        bracket := c.bracket
        opponent := c.opponent
        match_time := orTBD c.match_time
        mat := orTBD c.mat
        source_url := source_url }
    { seen := key :: acc.seen, rows := acc.rows ++ [r] }

/-- The candidate streams the five strategies produce from one fetched
sub-page, in the order the source runs them. -/
structure PageCands where
  url : String
  schedRows : List ExtractCand
  profileCards : List ExtractCand
  tableRows : List ExtractCand
  scriptObjs : List ExtractCand
  blockNodes : List ExtractCand
deriving Repr

/-- Process one sub-page: run the five strategies in order against the
shared accumulator. -/
def processPage (acc : MergeAcc) (p : PageCands) : MergeAcc :=
  let a1 := p.schedRows.foldl (stepConsistent p.url) acc
  let a2 := p.profileCards.foldl (stepConsistent p.url) a1
  let a3 := p.tableRows.foldl (stepTable p.url) a2
  let a4 := p.scriptObjs.foldl (stepConsistent p.url) a3
  p.blockNodes.foldl (stepConsistent p.url) a4

/-- The merged output of competitor extraction over the fetched sub-pages,
with the seen-key set shared across pages and strategies. -/
def fetchCompetitorsCore (pages : List PageCands) : List CompetitorSchedule :=
  (pages.foldl processPage ⟨[], []⟩).rows

/-! ### Affiliate and person hint detection -/

/-- Scan for the time-of-day pattern of the affiliate-label filter: a word
boundary, one or two digits, a colon, two digits, optional whitespace, the
letters am or pm, and a word boundary. -/
def timeAmPmHere (cs : List Char) : Bool :=
  let rest2 : Option (List Char) :=
    match cs with
    | a :: b :: ':' :: e :: f :: rest =>
      if a.isDigit && b.isDigit && e.isDigit && f.isDigit then some rest else none
    | _ => none
  let rest1 : Option (List Char) :=
    match cs with
    | a :: ':' :: e :: f :: rest =>
      if a.isDigit && e.isDigit && f.isDigit then some rest else none
    | _ => none
  match (match rest2 with | some r => some r | none => rest1) with
  | none => false
  | some r =>
    match r.dropWhile isPyWs with
    | 'a' :: 'm' :: r2 =>
      match r2 with
      | [] => true
      | c :: _ => !isWordChar c
    | 'p' :: 'm' :: r2 =>
      match r2 with
      | [] => true
      | c :: _ => !isWordChar c
    | _ => false

/-- Word-bounded scan for the time-of-day pattern. -/
def timeAmPmGo : List Char → Bool → Bool
  | [], _ => false
  | c :: rest, prevW =>
    (!prevW && timeAmPmHere (c :: rest)) || timeAmPmGo rest (isWordChar c)

/-- Does the lower-cased text contain a time-of-day mention? -/
def timeAmPmFound (cs : List Char) : Bool := timeAmPmGo cs false

/-- The source's static filter deciding whether a string looks like an
affiliate label rather than a division, a count or page chrome. -/
def isLikelyAffiliateLabel (text : String) : Bool :=
  let t := pyStrip (String.mk (collapseWs text.data))
  let lower := pyLower t
  if t.length < 3 || t.length > 120 then false
  else if timeAmPmFound lower.data then false
  else if strContains t "/" &&
      (["kg", "adult", "master", "female", "male", "white", "blue", "brown",
        "black"].any fun x => strContains lower x) then false
  else if ["participants", "ranking", "membership", "home events",
      "approved registrations"].any (fun x => strContains lower x) then false
  else true

/-- Increment a counter dictionary with Python semantics: an existing key
keeps its position, a new key is appended with count one. -/
def bump (m : List (String × Nat)) (k : String) : List (String × Nat) :=
  if m.any (fun p => p.1 == k) then
    m.map (fun p => if p.1 == k then (p.1, p.2 + 1) else p)
  else m ++ [(k, 1)]

/-- Ordering of the affiliate-count entries: descending count, then the
lower-cased label. -/
def countLe (a b : String × Nat) : Bool :=
  if b.2 < a.2 then true
  else if a.2 < b.2 then false
  else strLe (pyLower a.1) (pyLower b.1)

/-- The pure part of affiliate hint detection: count the plausible academy
labels of the extracted rows and return the most frequent ones. -/
def affiliateHints (rows : List CompetitorSchedule) (limit : Nat) : List String :=
  let counts := rows.foldl
    (fun counts row =>
      let academy := pyStrip row.academy
      if academy == "" then counts
      else if pyLower academy == "tbd" || pyLower academy == "team match" ||
          pyLower academy == "unknown" then counts
      else if !isLikelyAffiliateLabel academy then counts
      else bump counts academy)
    []
  ((pySort countLe counts).take limit).map (fun p => p.1)

/-- A character of the person-name character class of the source: a letter,
apostrophe, backquote, dot or hyphen. -/
def nameChar (c : Char) : Bool :=
  c.isAlpha || c == Char.ofNat 39 || c == Char.ofNat 96 || c == '.' || c == '-'

mutual

/-- State of the anchored person-name pattern inside a word, with the count
of completed whitespace-separated follow-up words. -/
def personAfterChar : List Char → Nat → Bool
  | [], k => decide (1 ≤ k) && decide (k ≤ 4)
  | c :: rest, k =>
    if nameChar c then personAfterChar rest k
    else if isPyWs c then personInWs rest k
    else false

/-- State of the anchored person-name pattern inside a whitespace run. -/
def personInWs : List Char → Nat → Bool
  | [], _ => false
  | c :: rest, k =>
    if isPyWs c then personInWs rest k
    else if nameChar c then personAfterChar rest (k + 1)
    else false

end

/-- The anchored person-name pattern of the source: a name-class word
followed by one to four whitespace-separated name-class words, spanning the
whole string. -/
def personShape : List Char → Bool
  | [] => false
  | c :: rest => if nameChar c then personAfterChar rest 0 else false

/-- The source's static plausibility filter for person names. -/
def isPlausiblePersonName (name : String) : Bool :=
  let n := pyStrip name
  if n.length < 5 then false
  else
    let lower := pyLower n
    if ["philippines", "smoothcomp", "novice", "championship",
        "participants"].any (fun b => strContains lower b) then false
    else personShape n.data

/-- The loop of person hint detection: distinct plausible names with their
division, in first-seen order, stopping once the limit is reached. -/
def peopleHintsGo (limit : Nat) :
    List CompetitorSchedule → List String → Nat → List (String × String)
  | [], _, _ => []
  | row :: rest, seen, outLen =>
    let name := pyStrip row.competitor_name
    if !isPlausiblePersonName name then peopleHintsGo limit rest seen outLen
    else if seen.contains (pyLower name) then peopleHintsGo limit rest seen outLen
    else
      let division := pyStrip (if row.division == "" then "TBD" else row.division)
      if limit ≤ outLen + 1 then [(name, division)]
      else (name, division) :: peopleHintsGo limit rest (pyLower name :: seen) (outLen + 1)

/-- The pure part of person hint detection. -/
def peopleHints (rows : List CompetitorSchedule) (limit : Nat) : List (String × String) :=
  peopleHintsGo limit rows [] 0

/-! ### Sub-page URL variants for competitor extraction -/

/-- Python string replacement of every occurrence, scanning left to right. -/
def replaceAllGo : Nat → List Char → List Char → List Char → List Char
  | 0, cs, _, _ => cs
  | fuel + 1, cs, pat, rep =>
    match cs with
    | [] => []
    | c :: rest =>
      if listStartsWith cs pat then rep ++ replaceAllGo fuel (cs.drop pat.length) pat rep
      else c :: replaceAllGo fuel rest pat rep

/-- Python string replacement on strings. -/
def replaceAll (s pat rep : String) : String :=
  String.mk (replaceAllGo s.data.length s.data pat.data rep.data)

/-- Append a key when absent, modelling first-seen-wins dictionary keys. -/
def addKey (m : List String) (k : String) : List String :=
  if m.contains k then m else m ++ [k]

/-- The source's list of sub-page URL variants to fetch for an event: the
canonical base, participants pages, schedule and bracket pages, locale
mirrors, with the brackets and participants pages first and the rest in
sorted order. -/
def eventPagesToTry (event_url : String) : List String :=
  let base := String.mk (rstripSlash (canonicalEventUrl event_url).data)
  let v1 : List String :=
    [base, base ++ "/participants", base ++ "/participants?page=1",
     base ++ "/participants?page=2", base ++ "/participants?page=3",
     base ++ "/participants?page=4", base ++ "/schedule/brackets",
     base ++ "/schedule", base ++ "/bracket", base ++ "/brackets",
     base ++ "/matches", base ++ "/registrations"]
  let v2 : List String :=
    if strContains base "/en/event/" then
      let alt := replaceAll base "/en/event/" "/event/"
      [alt, alt ++ "/participants", alt ++ "/schedule/brackets", alt ++ "/schedule",
       alt ++ "/bracket", alt ++ "/matches"]
    else if strContains base "/event/" then
      let alt := replaceAll base "/event/" "/en/event/"
      [alt, alt ++ "/participants", alt ++ "/schedule/brackets", alt ++ "/schedule",
       alt ++ "/bracket", alt ++ "/matches"]
    else []
  let variants := (v1 ++ v2).foldl addKey []
  let ordered0 :=
    (if variants.contains (base ++ "/schedule/brackets") then
      [base ++ "/schedule/brackets"] else []) ++
    (if variants.contains (base ++ "/participants") then
      [base ++ "/participants"] else [])
  ordered0 ++ (pySort strLe variants).filter (fun u => !ordered0.contains u)

/-! ### The network boundary

HTTP traffic is modelled by an oracle: each page the core can request either
fails (a timeout, DNS failure or non-success status collapsed into one
transport error, exactly the failures the source's exception handlers
distinguish from data) or yields the parsed payload the source would extract
from the response.  Operations are embedded as functions of the oracle
returning an exceptional result, so a propagated exception of the source is
an error value of the model. -/

/-- The payload of a successfully fetched single-event page. -/
structure EventPage where
  respUrl : String
  pageName : String
  blob : String
deriving Repr

/-- The network oracle. -/
structure Net where
  primaryPage : Except Unit (List Candidate)
  fallbackPage : Except Unit (List Row)
  eventPage : String → Except Unit EventPage
  subPage : String → Option PageCands
  listPage : String → Except Unit (List String)

/-- Event fetching with its network fetches: the primary listing fetch
checks the response status without an exception handler, so its failure
propagates; the same holds for the mirror fetch when the cascade falls
through. -/
def fetchEventsNet (net : Net) (year : Nat) (country : String) (now : PyDate) :
    Except Unit (List Event) :=
  match net.primaryPage with
  | .error e => .error e
  | .ok cands =>
    match fetchEventsCore cands year country now with
    | .primary evs => .ok evs
    | .useMirror =>
      match net.fallbackPage with
      | .error e => .error e
      | .ok rows => .ok (fallbackCore rows year country (some now) now)

/-- Resolution of a single event URL: the fetch is wrapped in an exception
handler returning no event, so no failure propagates. -/
def fetchEventByUrlNet (net : Net) (event_url default_country : String) :
    Except Unit (Option Event) :=
  match net.eventPage event_url with
  | .error _ => .ok none
  | .ok pg =>
    let final_url := canonicalEventUrl pg.respUrl
    let blob := pg.blob
    let dates := extractDatesFromText blob
    .ok (some
      { id := eventIdFromUrl final_url
        name := pg.pageName
        url := final_url
        location := extractLocation blob
        country := if countryInText blob default_country then default_country else ""
        start_date := dates[0]?
        end_date := dates[1]? })

/-- The strip of a trailing query string the id-resolution scan applies to
every URL it finds. -/
def stripQuery (s : String) : String := String.mk (takeQ s.data)

/-- The candidate URL list for a bare event id: two fixed guesses plus the
URLs scanned from the listing pages, each fetch guarded by an exception
handler that skips the page. -/
def candidateUrlsNet (net : Net) (event_id : String) (pages : List String) :
    List String :=
  let m0 := addKey (addKey [] ("https://smoothcomp.com/en/event/" ++ event_id))
    ("https://smoothcomp.com/event/" ++ event_id)
  pages.foldl
    (fun acc page =>
      match net.listPage page with
      | .error _ => acc
      | .ok found => found.foldl (fun a m => addKey a (stripQuery m)) acc)
    m0

/-- The confirmation loop of id resolution: resolve each candidate URL and
return the first event whose id matches. -/
def firstConfirmed (net : Net) (default_country event_id : String) :
    List String → Option Event
  | [] => none
  | url :: rest =>
    match fetchEventByUrlNet net url default_country with
    | .ok (some e) =>
      if e.id == event_id then some e else firstConfirmed net default_country event_id rest
    | _ => firstConfirmed net default_country event_id rest

/-- Resolution of a bare event id. -/
def fetchEventByIdNet (net : Net) (event_id default_country : String)
    (pages : List String) : Except Unit (Option Event) :=
  .ok (firstConfirmed net default_country event_id
    (candidateUrlsNet net event_id pages))

/-- Competitor extraction with its network fetches: every sub-page fetch is
guarded, a failed or non-success page is skipped and the remaining pages are
merged. -/
def fetchCompetitorsNet (net : Net) (event_url : String) :
    Except Unit (List CompetitorSchedule) :=
  .ok (fetchCompetitorsCore ((eventPagesToTry event_url).filterMap net.subPage))

/-- Affiliate hint detection: re-run extraction unfiltered, then rank the
labels. -/
def detectAffiliatesNet (net : Net) (event_url : String) (limit : Nat) :
    Except Unit (List String) :=
  match fetchCompetitorsNet net event_url with
  | .error e => .error e
  | .ok rows => .ok (affiliateHints rows limit)

/-- Person hint detection: re-run extraction unfiltered, then collect
distinct plausible names. -/
def detectPeopleNet (net : Net) (event_url : String) (limit : Nat) :
    Except Unit (List (String × String)) :=
  match fetchCompetitorsNet net event_url with
  | .error e => .error e
  | .ok rows => .ok (peopleHints rows limit)

/-- Search by name with its network fetches: the primary discovery call and
the broad mirror sweep both run without an exception handler, then the
merged candidates are scored. -/
def searchEventsByNameNet (net : Net) (name_query : String) (year : Nat)
    (country : String) (limit : Nat) (now : PyDate) : Except Unit (List Event) :=
  match fetchEventsNet net year country now with
  | .error e => .error e
  | .ok primary =>
    match net.fallbackPage with
    | .error e => .error e
    | .ok rows =>
      let fallback_broad := fallbackCore rows year country none now
      .ok (searchRank (mergeByUrl primary fallback_broad) name_query year limit)

/-! ### Concrete inputs used to settle individual claims -/

/-- A mirror-listing row for a country-matched event in the target year whose
start date lies in the past relative to the evaluation date. -/
def c2RowPast : Row :=
  ⟨"https://smoothcomp.com/en/event/1", "Manila, Philippines 2026-01-01", "Past Open"⟩

/-- A mirror-listing row for a country-matched event in the target year whose
start date lies in the future relative to the evaluation date. -/
def c2RowFuture : Row :=
  ⟨"https://smoothcomp.com/en/event/2", "Cebu, Philippines 2026-06-01", "Future Open"⟩

/-- The evaluation date for the search-mode mirror demonstration. -/
def c2Now : PyDate := ⟨2026, 1, 15⟩

/-- A generic-table extraction candidate whose division, match time and mat
were not detected, leaving them empty before the placeholder substitution. -/
def c3TableCand : ExtractCand :=
  { competitor_name := "Alice Santos", academy := "Gracie Club", division := "",
    opponent := "TBD", match_time := "", mat := "" }

/-- A DOM-block extraction candidate for the same competitor with the
placeholder values the block strategy substitutes before keying. -/
def c3BlockCand : ExtractCand :=
  { competitor_name := "Alice Santos", academy := "Team match", division := "TBD",
    opponent := "TBD", match_time := "TBD", mat := "TBD" }

/-- A sub-page on which the generic-table strategy and the block strategy
each extract the competitor above. -/
def c3Page : PageCands :=
  { url := "https://smoothcomp.com/en/event/9/participants", schedRows := [],
    profileCards := [], tableRows := [c3TableCand], scriptObjs := [],
    blockNodes := [c3BlockCand] }

/-- A network oracle on which every fetch fails with a transport error. -/
def errNet : Net :=
  { primaryPage := Except.error ()
    fallbackPage := Except.error ()
    eventPage := fun _ => Except.error ()
    subPage := fun _ => none
    listPage := fun _ => Except.error () }

/-- A candidate event whose name contains the query as a substring plus the
year string. -/
def c5Hyperfly : Event :=
  { id := "1", name := "Hyperfly Asian Open 2026", url := "https://smoothcomp.com/en/event/1" }

/-- A candidate event sharing only one word token with the query. -/
def c5HyperOpen : Event :=
  { id := "2", name := "Hyper Open", url := "https://smoothcomp.com/en/event/2" }

/-- A character list contains a slash-event-slash-digits segment. -/
def hasEventIdSeg (cs : List Char) : Prop :=
  ∃ pre d rest, cs = pre ++ "/event/".data ++ d ++ rest ∧ d ≠ [] ∧
    d.all Char.isDigit = true

/-! ## Shared lemmas -/

theorem takeWhile_append_cases (p : Char → Bool) (xs ys : List Char) :
    (xs ++ ys).takeWhile p =
      if xs.all p then xs ++ ys.takeWhile p else xs.takeWhile p := by
  induction xs with
  | nil => simp
  | cons c rest ih =>
    by_cases hc : p c = true
    · simp [List.takeWhile_cons, hc, ih]
      split <;> simp_all
    · simp [List.takeWhile_cons, hc, List.all_cons]

theorem rstripSlash_append_slash (xs : List Char) :
    rstripSlash (xs ++ ['/']) = rstripSlash xs := by
  simp [rstripSlash, List.dropWhile]

theorem takeQ_append_q (u q : List Char) : takeQ (u ++ '?' :: q) = takeQ u := by
  unfold takeQ
  rw [takeWhile_append_cases]
  split
  · next h =>
    rw [List.takeWhile_cons]
    simp only [beq_self_eq_true, Bool.not_true, Bool.false_eq_true, if_false,
      List.append_nil]
    exact (List.takeWhile_eq_self_iff.2 (by simpa using h)).symm
  · rfl

theorem takeQ_append_slash_strip (u : List Char) :
    rstripSlash (takeQ (u ++ ['/'])) = rstripSlash (takeQ u) := by
  unfold takeQ
  rw [takeWhile_append_cases]
  split
  · next h =>
    rw [List.takeWhile_cons]
    simp only [show ((('/' : Char) == '?') = false) from rfl, Bool.not_false, if_true,
      List.takeWhile_nil]
    rw [rstripSlash_append_slash]
    rw [List.takeWhile_eq_self_iff.2 (by simpa using h)]
  · rfl

/-! ## Claim C6: canonicalization ignores query strings and trailing slashes -/

/-- C6: for every URL and query suffix, the canonicalizer yields the same
output on the URL, on the URL with an appended query string, and on the URL
with an appended trailing slash. -/
theorem canonical_url_query_slash_invariant (u q : String) :
    canonicalEventUrl (u ++ "?" ++ q) = canonicalEventUrl u ∧
    canonicalEventUrl (u ++ "/") = canonicalEventUrl u := by
  have hq : (u ++ "?" ++ q).data = u.data ++ '?' :: q.data := by
    rw [String.data_append, String.data_append, List.append_assoc]
    rfl
  have hs : (u ++ "/").data = u.data ++ ['/'] := by
    rw [String.data_append]
  constructor
  · unfold canonicalEventUrl
    rw [hq, takeQ_append_q]
  · unfold canonicalEventUrl
    rw [hs, takeQ_append_slash_strip]

/-! ## Event-id scanner lemmas -/

theorem eventPatData : ("/event/" : String).data = ['/', 'e', 'v', 'e', 'n', 't', '/'] := rfl

theorem dropLit_self_append (pat rest : List Char) : dropLit (pat ++ rest) pat = some rest := by
  induction pat with
  | nil => simp [dropLit]
  | cons c ps ih => simp [dropLit, ih]

theorem dropLit_sound : ∀ (pat cs rest : List Char), dropLit cs pat = some rest → cs = pat ++ rest
  | [], cs, rest, h => by
    simp only [dropLit, Option.some.injEq] at h
    simp [h]
  | p :: ps, [], rest, h => by simp [dropLit] at h
  | p :: ps, c :: cs, rest, h => by
    simp only [dropLit] at h
    by_cases hc : (c == p) = true
    · rw [if_pos hc] at h
      have hrec := dropLit_sound ps cs rest h
      have hcp : c = p := by simpa using hc
      simp [hrec, hcp]
    · rw [if_neg hc] at h
      exact absurd h (by simp)

theorem searchEventId_cons_eq (c : Char) (cs : List Char) :
    searchEventId (c :: cs) =
      match matchEventIdAt (c :: cs) with
      | some m => some m
      | none => searchEventId cs := rfl

theorem matchEventIdAt_eval (cs r : List Char)
    (hdl : dropLit cs ("/event/" : String).data = some r) :
    matchEventIdAt cs =
      if (r.takeWhile Char.isDigit).isEmpty = true then none
      else some (r.takeWhile Char.isDigit) := by
  unfold matchEventIdAt
  rw [hdl]

theorem searchEventId_cons_ne (c : Char) (cs : List Char) (h : (c == '/') = false) :
    searchEventId (c :: cs) = searchEventId cs := by
  simp [searchEventId, matchEventIdAt, eventPatData, dropLit, h]

theorem searchEventId_slash (c : Char) (cs : List Char) (h : (c == 'e') = false) :
    searchEventId ('/' :: c :: cs) = searchEventId (c :: cs) := by
  simp [searchEventId, matchEventIdAt, eventPatData, dropLit, h]

theorem searchEventId_slash_e (c : Char) (cs : List Char) (h : (c == 'v') = false) :
    searchEventId ('/' :: 'e' :: c :: cs) = searchEventId ('e' :: c :: cs) := by
  rw [searchEventId_cons_ne 'e' (c :: cs) (by decide)]
  simp [searchEventId, matchEventIdAt, eventPatData, dropLit, h]

theorem searchEventId_skip_base (xs : List Char) :
    searchEventId (("https://smoothcomp.com/en" : String).data ++ xs) = searchEventId xs := by
  rw [show ("https://smoothcomp.com/en" : String).data =
    ['h', 't', 't', 'p', 's', ':', '/', '/', 's', 'm', 'o', 'o', 't', 'h', 'c',
     'o', 'm', 'p', '.', 'c', 'o', 'm', '/', 'e', 'n'] from rfl]
  simp only [List.cons_append, List.nil_append]
  rw [searchEventId_cons_ne 'h' _ (by decide), searchEventId_cons_ne 't' _ (by decide),
    searchEventId_cons_ne 't' _ (by decide), searchEventId_cons_ne 'p' _ (by decide),
    searchEventId_cons_ne 's' _ (by decide), searchEventId_cons_ne ':' _ (by decide),
    searchEventId_slash '/' _ (by decide), searchEventId_slash 's' _ (by decide),
    searchEventId_cons_ne 's' _ (by decide), searchEventId_cons_ne 'm' _ (by decide),
    searchEventId_cons_ne 'o' _ (by decide), searchEventId_cons_ne 'o' _ (by decide),
    searchEventId_cons_ne 't' _ (by decide), searchEventId_cons_ne 'h' _ (by decide),
    searchEventId_cons_ne 'c' _ (by decide), searchEventId_cons_ne 'o' _ (by decide),
    searchEventId_cons_ne 'm' _ (by decide), searchEventId_cons_ne 'p' _ (by decide),
    searchEventId_cons_ne '.' _ (by decide), searchEventId_cons_ne 'c' _ (by decide),
    searchEventId_cons_ne 'o' _ (by decide), searchEventId_cons_ne 'm' _ (by decide),
    searchEventId_slash_e 'n' _ (by decide), searchEventId_cons_ne 'e' _ (by decide),
    searchEventId_cons_ne 'n' _ (by decide)]

/-! ## Claim C7: id extraction round-trips with URL construction -/

/-- C7: for every non-empty digit string, extracting the id from the URL the
id constructor builds returns the same id. -/
theorem event_id_roundtrip (id : String) (h1 : id ≠ "")
    (h2 : id.data.all Char.isDigit = true) :
    eventIdFromUrl (eventUrlFromId id) = id := by
  obtain ⟨l⟩ := id
  have hl : l ≠ [] := by
    intro hnil
    exact h1 (by rw [hnil])
  unfold eventUrlFromId eventIdFromUrl
  have hdata : (("https://smoothcomp.com/en/event/" : String) ++ String.mk l).data =
      ("https://smoothcomp.com/en" : String).data ++ ("/event/" : String).data ++ l := by
    rw [String.data_append]
    rfl
  rw [hdata, List.append_assoc, searchEventId_skip_base]
  have hexpose : ("/event/" : String).data ++ l = '/' :: (("event/" : String).data ++ l) := rfl
  rw [hexpose]
  have hdl : dropLit ('/' :: (("event/" : String).data ++ l)) ("/event/" : String).data
      = some l := dropLit_self_append _ l
  have htw : l.takeWhile Char.isDigit = l :=
    List.takeWhile_eq_self_iff.2 (by simpa [List.all_eq_true] using h2)
  have hne : l.isEmpty = false := by
    cases l with
    | nil => exact absurd rfl hl
    | cons a as => rfl
  have h1 : matchEventIdAt ('/' :: (("event/" : String).data ++ l)) = some l := by
    rw [matchEventIdAt_eval _ _ hdl, htw, if_neg (by simp [hne])]
  rw [searchEventId_cons_eq, h1]

/-- Witness for C7 at a concrete id. -/
theorem event_id_roundtrip_witness :
    ("26935" : String) ≠ "" ∧ ("26935" : String).data.all Char.isDigit = true ∧
    eventIdFromUrl (eventUrlFromId "26935") = "26935" :=
  ⟨by decide, by decide, event_id_roundtrip "26935" (by decide) (by decide)⟩

/-! ## Claim C10: inputs without an event segment pass through unchanged -/

theorem matchEventIdAt_sound (cs ds : List Char) (h : matchEventIdAt cs = some ds) :
    ∃ rest, cs = ("/event/" : String).data ++ ds ++ rest ∧ ds ≠ [] ∧
      ds.all Char.isDigit = true := by
  cases hdl : dropLit cs ("/event/" : String).data with
  | none =>
    unfold matchEventIdAt at h
    rw [hdl] at h
    exact absurd h (by simp)
  | some r =>
    rw [matchEventIdAt_eval _ _ hdl] at h
    by_cases he : (r.takeWhile Char.isDigit).isEmpty = true
    · rw [if_pos he] at h
      exact absurd h (by simp)
    · rw [if_neg he] at h
      have hds : ds = r.takeWhile Char.isDigit := by
        simpa using h.symm
      subst hds
      refine ⟨r.dropWhile Char.isDigit, ?_, ?_, ?_⟩
      · rw [dropLit_sound _ _ _ hdl, List.append_assoc,
          List.takeWhile_append_dropWhile Char.isDigit r]
      · intro hnil
        rw [hnil] at he
        exact he rfl
      · rw [List.all_eq_true]
        intro x hx
        exact List.mem_takeWhile_imp hx

theorem searchEventId_sound (cs ds : List Char) (h : searchEventId cs = some ds) :
    hasEventIdSeg cs := by
  induction cs with
  | nil => simp [searchEventId] at h
  | cons c rest ih =>
    unfold searchEventId at h
    cases hm : matchEventIdAt (c :: rest) with
    | some m =>
      rw [hm] at h
      obtain ⟨r, hcs, hne, hall⟩ := matchEventIdAt_sound _ _ hm
      exact ⟨[], m, r, by simpa using hcs, hne, hall⟩
    | none =>
      rw [hm] at h
      obtain ⟨pre, d, r, hcs, hne, hall⟩ := ih h
      exact ⟨c :: pre, d, r, by simp [hcs], hne, hall⟩

theorem searchEventId_complete (cs : List Char) (h : hasEventIdSeg cs) :
    searchEventId cs ≠ none := by
  obtain ⟨pre, d, rest, hcs, hne, hall⟩ := h
  subst hcs
  induction pre with
  | nil =>
    simp only [List.nil_append]
    have hexpose : ("/event/" : String).data ++ d ++ rest =
        '/' :: (("event/" : String).data ++ (d ++ rest)) := by
      rw [List.append_assoc]
      rfl
    rw [hexpose]
    have hdl : dropLit ('/' :: (("event/" : String).data ++ (d ++ rest)))
        ("/event/" : String).data = some (d ++ rest) := dropLit_self_append _ _
    have htw : (d ++ rest).takeWhile Char.isDigit = d ++ rest.takeWhile Char.isDigit := by
      rw [takeWhile_append_cases]
      simp [hall]
    have hnonempty : (d ++ rest.takeWhile Char.isDigit).isEmpty = false := by
      cases d with
      | nil => exact absurd rfl hne
      | cons a as => rfl
    have hm1 : matchEventIdAt ('/' :: (("event/" : String).data ++ (d ++ rest))) =
        some (d ++ rest.takeWhile Char.isDigit) := by
      rw [matchEventIdAt_eval _ _ hdl, htw, if_neg (by simp [hnonempty])]
    rw [searchEventId_cons_eq, hm1]
    simp
  | cons c pre ih =>
    simp only [List.cons_append]
    rw [searchEventId_cons_eq]
    cases hm : matchEventIdAt (c :: (pre ++ ("/event/" : String).data ++ d ++ rest)) with
    | some m => simp
    | none => simpa using ih

/-- C10: for every input string containing no slash-event-slash-digits
segment, id extraction returns the whole input unchanged. -/
theorem event_id_identity_on_unmatched (url : String) (h : ¬ hasEventIdSeg url.data) :
    eventIdFromUrl url = url := by
  unfold eventIdFromUrl
  cases hs : searchEventId url.data with
  | none => rfl
  | some ds => exact absurd (searchEventId_sound _ _ hs) h

/-- Witness for C10 at a concrete URL without an event segment. -/
theorem event_id_identity_witness :
    ¬ hasEventIdSeg ("https://smoothcomp.com/en/events/upcoming" : String).data ∧
    eventIdFromUrl "https://smoothcomp.com/en/events/upcoming" =
      "https://smoothcomp.com/en/events/upcoming" := by
  have hn : ¬ hasEventIdSeg ("https://smoothcomp.com/en/events/upcoming" : String).data :=
    fun h => searchEventId_complete _ h (by decide)
  exact ⟨hn, event_id_identity_on_unmatched _ hn⟩

/-! ## Claim C8: location extraction tokens -/

set_option maxRecDepth 4000 in
/-- C8 counterexample: a blob that consists of the country name itself (and
so, per the claim, should yield its first one hundred and twenty characters)
yields the empty string, because the source matches its hard-coded lower-case
tokens case-sensitively and never consults the country argument. -/
theorem extract_location_counterexample :
    strContains "Philippines" "Philippines" = true ∧
    ("Philippines" : String).take 120 = "Philippines" ∧
    extractLocation "Philippines" = "" := by
  refine ⟨by decide, by decide, by decide⟩

/-- C8 amended: the location extractor returns the first one hundred and
twenty characters of the blob exactly when the blob contains, as a
case-sensitive substring, one of the four fixed lower-case tokens city,
venue, location, philippines; otherwise it returns the empty string. -/
theorem extract_location_amended (text : String) :
    extractLocation text =
      if strContains text "city" || strContains text "venue" ||
          strContains text "location" || strContains text "philippines"
      then text.take 120 else "" := by
  by_cases h1 : strContains text "city" = true <;>
    by_cases h2 : strContains text "venue" = true <;>
      by_cases h3 : strContains text "location" = true <;>
        by_cases h4 : strContains text "philippines" = true <;>
          simp [extractLocation, extractLocationGo, h1, h2, h3, h4]

/-! ## Sorting lemmas for the datetime ordering -/

theorem dtLe_total (a b : PyDT) : dtLe a b = true ∨ dtLe b a = true := by
  obtain ⟨y1, m1, d1, hh1, n1⟩ := a
  obtain ⟨y2, m2, d2, hh2, n2⟩ := b
  simp only [dtLe, dtLt, Bool.or_eq_true, Bool.and_eq_true, beq_iff_eq,
    decide_eq_true_eq, PyDT.mk.injEq]
  omega

theorem dtLe_trans (a b c : PyDT) (h1 : dtLe a b = true) (h2 : dtLe b c = true) :
    dtLe a c = true := by
  obtain ⟨y1, m1, d1, hh1, n1⟩ := a
  obtain ⟨y2, m2, d2, hh2, n2⟩ := b
  obtain ⟨y3, m3, d3, hh3, n3⟩ := c
  simp only [dtLe, dtLt, Bool.or_eq_true, Bool.and_eq_true, beq_iff_eq,
    decide_eq_true_eq, PyDT.mk.injEq] at h1 h2 ⊢
  omega

theorem pySort_sorted {α : Type} (le : α → α → Bool)
    (htot : ∀ a b, le a b = true ∨ le b a = true)
    (htr : ∀ a b c, le a b = true → le b c = true → le a c = true) (l : List α) :
    List.Pairwise (fun a b => le a b = true) (pySort le l) := by
  haveI : IsTotal α (fun a b => le a b = true) := ⟨htot⟩
  haveI : IsTrans α (fun a b => le a b = true) := ⟨fun a b c => htr a b c⟩
  exact List.sorted_insertionSort _ l

theorem pySort_perm {α : Type} (le : α → α → Bool) (l : List α) :
    (pySort le l).Perm l :=
  List.perm_insertionSort _ l

/-! ## Claim C9: date extraction is the ascending sort of the parses -/

/-- C9: the extracted date list is ascending, is a permutation of the
successful parses of the fragments the two patterns find (so a fragment that
fails every format is skipped, never fatal, and never shortens the rest), its
length never exceeds the number of fragments, discovery takes the first of
the list as start date and the second as end date, and on a concrete blob
the malformed fragment is skipped while the valid one is kept. -/
theorem extract_dates_sorted_complete (text : String) :
    List.Pairwise (fun a b => dtLe a b = true) (extractDatesFromText text) ∧
    (extractDatesFromText text).Perm
      ((findIso text.data ++ findLong text.data).filterMap parseAnyDate) ∧
    (extractDatesFromText text).length ≤
      (findIso text.data ++ findLong text.data).length ∧
    (∀ (country : String) (c : Candidate),
      (eventOfCandidate country c).start_date =
        (extractDatesFromText (String.intercalate " " c.contexts))[0]? ∧
      (eventOfCandidate country c).end_date =
        (extractDatesFromText (String.intercalate " " c.contexts))[1]?) ∧
    extractDatesFromText "2024-13-40 2026-03-15" = [⟨2026, 3, 15, 0, 0⟩] := by
  have hp := pySort_perm dtLe ((findIso text.data ++ findLong text.data).filterMap parseAnyDate)
  refine ⟨pySort_sorted dtLe dtLe_total dtLe_trans _, hp, ?_, fun country c => ⟨rfl, rfl⟩, by decide⟩
  rw [show (extractDatesFromText text).length
    = ((findIso text.data ++ findLong text.data).filterMap parseAnyDate).length from hp.length_eq]
  exact List.length_filterMap_le _ _

/-! ## Ordering lemmas for the sort keys -/

theorem strLeL_total (a : List Char) : ∀ b, strLeL a b = true ∨ strLeL b a = true := by
  induction a with
  | nil => intro b; left; rfl
  | cons x xs ih =>
    intro b
    cases b with
    | nil => right; rfl
    | cons y ys =>
      simp only [strLeL]
      rcases Nat.lt_trichotomy x.toNat y.toNat with h | h | h
      · left
        rw [if_pos h]
      · have hn1 : ¬ x.toNat < y.toNat := by omega
        have hn2 : ¬ y.toNat < x.toNat := by omega
        rw [if_neg hn1, if_neg hn2, if_neg hn2, if_neg hn1]
        exact ih ys
      · right
        rw [if_pos h]

theorem strLeL_trans (a : List Char) :
    ∀ b c, strLeL a b = true → strLeL b c = true → strLeL a c = true := by
  induction a with
  | nil => intro b c h1 h2; rfl
  | cons x xs ih =>
    intro b c h1 h2
    cases b with
    | nil => simp [strLeL] at h1
    | cons y ys =>
      cases c with
      | nil => simp [strLeL] at h2
      | cons z zs =>
        simp only [strLeL] at h1 h2 ⊢
        split_ifs at h1 h2 ⊢ <;>
          first
            | rfl
            | exact Bool.noConfusion h1
            | exact Bool.noConfusion h2
            | exact ih ys zs h1 h2
            | (exfalso; omega)

theorem strLe_total (a b : String) : strLe a b = true ∨ strLe b a = true :=
  strLeL_total a.data b.data

theorem strLe_trans (a b c : String) (h1 : strLe a b = true) (h2 : strLe b c = true) :
    strLe a c = true :=
  strLeL_trans a.data b.data c.data h1 h2

theorem dtLt_trans (a b c : PyDT) (h1 : dtLt a b = true) (h2 : dtLt b c = true) :
    dtLt a c = true := by
  obtain ⟨y1, m1, d1, hh1, n1⟩ := a
  obtain ⟨y2, m2, d2, hh2, n2⟩ := b
  obtain ⟨y3, m3, d3, hh3, n3⟩ := c
  simp only [dtLt, Bool.or_eq_true, Bool.and_eq_true, beq_iff_eq,
    decide_eq_true_eq] at h1 h2 ⊢
  omega

theorem dt_eq_of_not_lt (a b : PyDT) (h1 : dtLt a b = false) (h2 : dtLt b a = false) :
    a = b := by
  obtain ⟨y1, m1, d1, hh1, n1⟩ := a
  obtain ⟨y2, m2, d2, hh2, n2⟩ := b
  have h1' : ¬ dtLt ⟨y1, m1, d1, hh1, n1⟩ ⟨y2, m2, d2, hh2, n2⟩ = true := by simp [h1]
  have h2' : ¬ dtLt ⟨y2, m2, d2, hh2, n2⟩ ⟨y1, m1, d1, hh1, n1⟩ = true := by simp [h2]
  simp only [dtLt, Bool.or_eq_true, Bool.and_eq_true, beq_iff_eq,
    decide_eq_true_eq, not_or] at h1' h2'
  simp only [PyDT.mk.injEq]
  omega

theorem sortKeyLe_total (a b : Event) : sortKeyLe a b = true ∨ sortKeyLe b a = true := by
  unfold sortKeyLe
  by_cases h1 : dtLt (a.start_date.getD dtMax) (b.start_date.getD dtMax) = true
  · left
    simp [h1]
  · by_cases h2 : dtLt (b.start_date.getD dtMax) (a.start_date.getD dtMax) = true
    · right
      simp [h2]
    · simp only [h1, h2, Bool.false_eq_true, if_false]
      exact strLeL_total _ _

theorem dtLt_irrefl (d : PyDT) : dtLt d d = false := by
  obtain ⟨y1, m1, d1, hh1, n1⟩ := d
  simp only [dtLt]
  simp

theorem sortKeyLe_trans (a b c : Event) (h1 : sortKeyLe a b = true)
    (h2 : sortKeyLe b c = true) : sortKeyLe a c = true := by
  unfold sortKeyLe at h1 h2 ⊢
  by_cases hab : dtLt (a.start_date.getD dtMax) (b.start_date.getD dtMax) = true
  · by_cases hbc : dtLt (b.start_date.getD dtMax) (c.start_date.getD dtMax) = true
    · simp [dtLt_trans _ _ _ hab hbc]
    · by_cases hcb : dtLt (c.start_date.getD dtMax) (b.start_date.getD dtMax) = true
      · rw [if_neg hbc, if_pos hcb] at h2
        exact Bool.noConfusion h2
      · have heq : b.start_date.getD dtMax = c.start_date.getD dtMax :=
          dt_eq_of_not_lt _ _ (by simpa using hbc) (by simpa using hcb)
        rw [← heq]
        simp [hab]
  · by_cases hba : dtLt (b.start_date.getD dtMax) (a.start_date.getD dtMax) = true
    · rw [if_neg hab, if_pos hba] at h1
      exact Bool.noConfusion h1
    · have heq1 : a.start_date.getD dtMax = b.start_date.getD dtMax :=
        dt_eq_of_not_lt _ _ (by simpa using hab) (by simpa using hba)
      rw [if_neg hab, if_neg hba] at h1
      by_cases hbc : dtLt (b.start_date.getD dtMax) (c.start_date.getD dtMax) = true
      · rw [heq1]
        simp [hbc]
      · by_cases hcb : dtLt (c.start_date.getD dtMax) (b.start_date.getD dtMax) = true
        · rw [if_neg hbc, if_pos hcb] at h2
          exact Bool.noConfusion h2
        · have heq2 : b.start_date.getD dtMax = c.start_date.getD dtMax :=
            dt_eq_of_not_lt _ _ (by simpa using hbc) (by simpa using hcb)
          rw [if_neg hbc, if_neg hcb] at h2
          rw [heq1, heq2]
          have hirr : ¬ dtLt (c.start_date.getD dtMax) (c.start_date.getD dtMax) = true := by
            simp [dtLt_irrefl]
          rw [if_neg hirr, if_neg hirr]
          exact strLeL_trans _ _ _ h1 h2

theorem scoredLe_total (a b : Nat × Event) : scoredLe a b = true ∨ scoredLe b a = true := by
  unfold scoredLe
  rcases Nat.lt_trichotomy b.1 a.1 with h | h | h
  · left
    simp [h]
  · have hn : ¬ b.1 < a.1 := by omega
    have hn2 : ¬ a.1 < b.1 := by omega
    simp only [hn, hn2, if_false]
    exact sortKeyLe_total _ _
  · right
    simp [h]

theorem scoredLe_trans (a b c : Nat × Event) (h1 : scoredLe a b = true)
    (h2 : scoredLe b c = true) : scoredLe a c = true := by
  unfold scoredLe at h1 h2 ⊢
  by_cases hab : b.1 < a.1
  · by_cases hbc : c.1 < b.1
    · simp [show c.1 < a.1 by omega]
    · by_cases hcb : b.1 < c.1
      · rw [if_neg hbc, if_pos hcb] at h2
        exact Bool.noConfusion h2
      · simp [show c.1 < a.1 by omega]
  · by_cases hba : a.1 < b.1
    · rw [if_neg hab, if_pos hba] at h1
      exact Bool.noConfusion h1
    · rw [if_neg hab, if_neg hba] at h1
      by_cases hbc : c.1 < b.1
      · simp [show c.1 < a.1 by omega]
      · by_cases hcb : b.1 < c.1
        · rw [if_neg hbc, if_pos hcb] at h2
          exact Bool.noConfusion h2
        · rw [if_neg hbc, if_neg hcb] at h2
          have h3 : ¬ c.1 < a.1 := by omega
          have h4 : ¬ a.1 < c.1 := by omega
          rw [if_neg h3, if_neg h4]
          exact sortKeyLe_trans _ _ _ h1 h2

/-! ## Classification lemmas for primary discovery -/

theorem bucketIndex_cases (year : Nat) (ic : Bool) (ey : Option Nat) :
    bucketIndex year ic ey = 1 ∨ bucketIndex year ic ey = 2 ∨
    bucketIndex year ic ey = 3 ∨ bucketIndex year ic ey = 4 ∨
    bucketIndex year ic ey = 5 ∨ bucketIndex year ic ey = 6 := by
  unfold bucketIndex
  split_ifs <;> simp

theorem bucketOfList_cons_past (year : Nat) (country : String) (today : PyDate)
    (i : Nat) (c : Candidate) (rest : List Candidate)
    (hp : candidateIsPast today c = true) :
    bucketOfList year country today i (c :: rest) =
      bucketOfList year country today i rest := by
  simp [bucketOfList, survivorsOf, List.filter_cons, hp]

theorem bucketOfList_cons (year : Nat) (country : String) (today : PyDate)
    (i : Nat) (c : Candidate) (rest : List Candidate)
    (hp : candidateIsPast today c = false) :
    bucketOfList year country today i (c :: rest) =
      if bucketIndex year (candInCountry country c) (candYear c) == i
      then eventOfCandidate country c :: bucketOfList year country today i rest
      else bucketOfList year country today i rest := by
  simp only [bucketOfList, survivorsOf, List.filter_cons, hp, Bool.not_false, if_true]
  split <;> simp_all [bucketOfList, survivorsOf]

theorem classify_eq (year : Nat) (country : String) (today : PyDate)
    (cs : List Candidate) :
    classifyCandidates year country today cs =
      ⟨bucketOfList year country today 1 cs, bucketOfList year country today 2 cs,
       bucketOfList year country today 3 cs, bucketOfList year country today 4 cs,
       bucketOfList year country today 5 cs, bucketOfList year country today 6 cs⟩ := by
  induction cs with
  | nil => rfl
  | cons c rest ih =>
    by_cases hp : candidateIsPast today c = true
    · simp only [classifyCandidates, hp, if_true, ih,
        bucketOfList_cons_past year country today _ c rest hp]
    · have hp' : candidateIsPast today c = false := by simpa using hp
      simp only [classifyCandidates, hp', Bool.false_eq_true, if_false, ih]
      rw [bucketOfList_cons year country today 1 c rest hp',
        bucketOfList_cons year country today 2 c rest hp',
        bucketOfList_cons year country today 3 c rest hp',
        bucketOfList_cons year country today 4 c rest hp',
        bucketOfList_cons year country today 5 c rest hp',
        bucketOfList_cons year country today 6 c rest hp']
      by_cases h1 : (candInCountry country c && candYear c == some year) = true
      · have hidx : bucketIndex year (candInCountry country c) (candYear c) = 1 := by
          unfold bucketIndex
          rw [if_pos h1]
        rw [hidx]
        simp [h1]
      · by_cases h2 : (candInCountry country c && candYear c == none) = true
        · have hidx : bucketIndex year (candInCountry country c) (candYear c) = 2 := by
            unfold bucketIndex
            rw [if_neg h1, if_pos h2]
          rw [hidx]
          simp [h1, h2]
        · by_cases h3 : candInCountry country c = true
          · have hidx : bucketIndex year (candInCountry country c) (candYear c) = 3 := by
              unfold bucketIndex
              rw [if_neg h1, if_neg h2, if_pos h3]
            have hy1 : ¬ candYear c = some year := by
              simp [h3] at h1
              exact h1
            have hy2 : ¬ candYear c = none := by
              simp [h3] at h2
              exact h2
            rw [hidx]
            simp [h3, hy1, hy2]
          · by_cases h4 : (candYear c == some year) = true
            · have hidx : bucketIndex year (candInCountry country c) (candYear c) = 4 := by
                unfold bucketIndex
                rw [if_neg h1, if_neg h2, if_neg h3, if_pos h4]
              rw [hidx]
              simp [h1, h2, h3, h4]
            · by_cases h5 : (candYear c == none) = true
              · have hidx : bucketIndex year (candInCountry country c) (candYear c) = 5 := by
                  unfold bucketIndex
                  rw [if_neg h1, if_neg h2, if_neg h3, if_neg h4, if_pos h5]
                rw [hidx]
                simp [h1, h2, h3, h4, h5]
              · have hidx : bucketIndex year (candInCountry country c) (candYear c) = 6 := by
                  unfold bucketIndex
                  rw [if_neg h1, if_neg h2, if_neg h3, if_neg h4, if_neg h5]
                rw [hidx]
                simp [h1, h2, h3, h4, h5]

theorem bucket_partition (year : Nat) (country : String) (today : PyDate)
    (cs : List Candidate) :
    (bucketOfList year country today 1 cs).length +
    (bucketOfList year country today 2 cs).length +
    (bucketOfList year country today 3 cs).length +
    (bucketOfList year country today 4 cs).length +
    (bucketOfList year country today 5 cs).length +
    (bucketOfList year country today 6 cs).length =
      (survivorsOf today cs).length := by
  induction cs with
  | nil => rfl
  | cons c rest ih =>
    by_cases hp : candidateIsPast today c = true
    · have hs : survivorsOf today (c :: rest) = survivorsOf today rest := by
        simp [survivorsOf, List.filter_cons, hp]
      rw [bucketOfList_cons_past year country today 1 c rest hp,
        bucketOfList_cons_past year country today 2 c rest hp,
        bucketOfList_cons_past year country today 3 c rest hp,
        bucketOfList_cons_past year country today 4 c rest hp,
        bucketOfList_cons_past year country today 5 c rest hp,
        bucketOfList_cons_past year country today 6 c rest hp, hs, ih]
    · have hp' : candidateIsPast today c = false := by simpa using hp
      have hs : survivorsOf today (c :: rest) = c :: survivorsOf today rest := by
        simp [survivorsOf, List.filter_cons, hp']
      rw [bucketOfList_cons year country today 1 c rest hp',
        bucketOfList_cons year country today 2 c rest hp',
        bucketOfList_cons year country today 3 c rest hp',
        bucketOfList_cons year country today 4 c rest hp',
        bucketOfList_cons year country today 5 c rest hp',
        bucketOfList_cons year country today 6 c rest hp', hs]
      rcases bucketIndex_cases year (candInCountry country c) (candYear c) with
        h | h | h | h | h | h <;> simp [h] <;> omega

theorem pySort_eq_nil_iff {α : Type} (le : α → α → Bool) (l : List α) :
    pySort le l = [] ↔ l = [] := by
  constructor
  · intro h
    have hperm := pySort_perm le l
    rw [h] at hperm
    exact hperm.symm.eq_nil
  · intro h
    subst h
    rfl

theorem bucketIndex_spec (year : Nat) (ic : Bool) (ey : Option Nat) :
    (bucketIndex year ic ey = 1 ↔ ic = true ∧ ey = some year) ∧
    (bucketIndex year ic ey = 2 ↔ ic = true ∧ ey = none) ∧
    (bucketIndex year ic ey = 3 ↔ ic = true ∧ ¬ ey = none ∧ ¬ ey = some year) ∧
    (bucketIndex year ic ey = 4 ↔ ic = false ∧ ey = some year) ∧
    (bucketIndex year ic ey = 5 ↔ ic = false ∧ ey = none) ∧
    (bucketIndex year ic ey = 6 ↔ ic = false ∧ ¬ ey = none ∧ ¬ ey = some year) := by
  cases ic with
  | true =>
    cases ey with
    | none => simp [bucketIndex]
    | some y =>
      by_cases hy : y = year
      · subst hy
        simp [bucketIndex]
      · simp [bucketIndex, hy]
  | false =>
    cases ey with
    | none => simp [bucketIndex]
    | some y =>
      by_cases hy : y = year
      · subst hy
        simp [bucketIndex]
      · simp [bucketIndex, hy]

theorem fetchEventsCore_cascade (candidates : List Candidate) (year : Nat)
    (country : String) (today : PyDate) :
    fetchEventsCore candidates year country today =
      (if ¬ (classifyCandidates year country today candidates).b1 = [] ∨
          ¬ (classifyCandidates year country today candidates).b2 = [] then
        FetchOutcome.primary
          (pySort sortKeyLe (classifyCandidates year country today candidates).b1 ++
            pySort sortKeyLe (classifyCandidates year country today candidates).b2)
      else if ¬ (classifyCandidates year country today candidates).b3 = [] then
        FetchOutcome.primary (pySort sortKeyLe (classifyCandidates year country today candidates).b3)
      else if ¬ (classifyCandidates year country today candidates).b4 = [] ∨
          ¬ (classifyCandidates year country today candidates).b5 = [] then
        FetchOutcome.primary
          (pySort sortKeyLe (classifyCandidates year country today candidates).b4 ++
            pySort sortKeyLe (classifyCandidates year country today candidates).b5)
      else FetchOutcome.useMirror) := by
  unfold fetchEventsCore
  have h12 : ((!(pySort sortKeyLe (classifyCandidates year country today candidates).b1).isEmpty ||
      !(pySort sortKeyLe (classifyCandidates year country today candidates).b2).isEmpty) = true) ↔
      (¬ (classifyCandidates year country today candidates).b1 = [] ∨
        ¬ (classifyCandidates year country today candidates).b2 = []) := by
    simp [List.isEmpty_iff, pySort_eq_nil_iff]
  have h3 : ((!(pySort sortKeyLe (classifyCandidates year country today candidates).b3).isEmpty) = true) ↔
      ¬ (classifyCandidates year country today candidates).b3 = [] := by
    simp [List.isEmpty_iff, pySort_eq_nil_iff]
  have h45 : ((!(pySort sortKeyLe (classifyCandidates year country today candidates).b4).isEmpty ||
      !(pySort sortKeyLe (classifyCandidates year country today candidates).b5).isEmpty) = true) ↔
      (¬ (classifyCandidates year country today candidates).b4 = [] ∨
        ¬ (classifyCandidates year country today candidates).b5 = []) := by
    simp [List.isEmpty_iff, pySort_eq_nil_iff]
  simp only [h12, h3, h45]

theorem fetchEventsCore_mirror_iff (candidates : List Candidate) (year : Nat)
    (country : String) (today : PyDate) :
    fetchEventsCore candidates year country today = FetchOutcome.useMirror ↔
      ((classifyCandidates year country today candidates).b1 = [] ∧
        (classifyCandidates year country today candidates).b2 = [] ∧
        (classifyCandidates year country today candidates).b3 = [] ∧
        (classifyCandidates year country today candidates).b4 = [] ∧
        (classifyCandidates year country today candidates).b5 = []) := by
  rw [fetchEventsCore_cascade]
  by_cases hb1 : (classifyCandidates year country today candidates).b1 = [] <;>
    by_cases hb2 : (classifyCandidates year country today candidates).b2 = [] <;>
      by_cases hb3 : (classifyCandidates year country today candidates).b3 = [] <;>
        by_cases hb4 : (classifyCandidates year country today candidates).b4 = [] <;>
          by_cases hb5 : (classifyCandidates year country today candidates).b5 = [] <;>
            simp [hb1, hb2, hb3, hb4, hb5]

/-! ## Claim C1: the six-bucket cascade of primary discovery -/

/-- C1: discovery classifies every surviving candidate into exactly one of
six buckets whose definitions match the spec (country and year matched;
country matched with unknown year; country matched with another year; year
matched only; unknown year only; everything else), the bucket lists partition
the survivors, the result is the first non-empty tier among bucket one union
two, bucket three, bucket four union five, the mirror source is consulted
exactly when the first five buckets are all empty (bucket six is never
returned), and every returned bucket is sorted by the start-date-then-name
key through a permutation of its contents. -/
theorem fetch_events_cascade (candidates : List Candidate) (year : Nat)
    (country : String) (today : PyDate) :
    (∀ (ic : Bool) (ey : Option Nat),
      (bucketIndex year ic ey = 1 ↔ ic = true ∧ ey = some year) ∧
      (bucketIndex year ic ey = 2 ↔ ic = true ∧ ey = none) ∧
      (bucketIndex year ic ey = 3 ↔ ic = true ∧ ¬ ey = none ∧ ¬ ey = some year) ∧
      (bucketIndex year ic ey = 4 ↔ ic = false ∧ ey = some year) ∧
      (bucketIndex year ic ey = 5 ↔ ic = false ∧ ey = none) ∧
      (bucketIndex year ic ey = 6 ↔ ic = false ∧ ¬ ey = none ∧ ¬ ey = some year)) ∧
    classifyCandidates year country today candidates =
      ⟨bucketOfList year country today 1 candidates,
        bucketOfList year country today 2 candidates,
        bucketOfList year country today 3 candidates,
        bucketOfList year country today 4 candidates,
        bucketOfList year country today 5 candidates,
        bucketOfList year country today 6 candidates⟩ ∧
    ((bucketOfList year country today 1 candidates).length +
      (bucketOfList year country today 2 candidates).length +
      (bucketOfList year country today 3 candidates).length +
      (bucketOfList year country today 4 candidates).length +
      (bucketOfList year country today 5 candidates).length +
      (bucketOfList year country today 6 candidates).length =
      (survivorsOf today candidates).length) ∧
    (fetchEventsCore candidates year country today =
      (if ¬ (classifyCandidates year country today candidates).b1 = [] ∨
          ¬ (classifyCandidates year country today candidates).b2 = [] then
        FetchOutcome.primary
          (pySort sortKeyLe (classifyCandidates year country today candidates).b1 ++
            pySort sortKeyLe (classifyCandidates year country today candidates).b2)
      else if ¬ (classifyCandidates year country today candidates).b3 = [] then
        FetchOutcome.primary
          (pySort sortKeyLe (classifyCandidates year country today candidates).b3)
      else if ¬ (classifyCandidates year country today candidates).b4 = [] ∨
          ¬ (classifyCandidates year country today candidates).b5 = [] then
        FetchOutcome.primary
          (pySort sortKeyLe (classifyCandidates year country today candidates).b4 ++
            pySort sortKeyLe (classifyCandidates year country today candidates).b5)
      else FetchOutcome.useMirror)) ∧
    (fetchEventsCore candidates year country today = FetchOutcome.useMirror ↔
      ((classifyCandidates year country today candidates).b1 = [] ∧
        (classifyCandidates year country today candidates).b2 = [] ∧
        (classifyCandidates year country today candidates).b3 = [] ∧
        (classifyCandidates year country today candidates).b4 = [] ∧
        (classifyCandidates year country today candidates).b5 = [])) ∧
    (∀ l : List Event,
      List.Pairwise (fun a b => sortKeyLe a b = true) (pySort sortKeyLe l) ∧
      (pySort sortKeyLe l).Perm l) :=
  ⟨fun ic ey => bucketIndex_spec year ic ey,
    classify_eq year country today candidates,
    bucket_partition year country today candidates,
    fetchEventsCore_cascade candidates year country today,
    fetchEventsCore_mirror_iff candidates year country today,
    fun l => ⟨pySort_sorted sortKeyLe sortKeyLe_total sortKeyLe_trans l, pySort_perm sortKeyLe l⟩⟩

/-! ## Claim C2: past-event filtering, and the search-mode mirror bug -/

theorem survivorsOf_idem (today : PyDate) (cs : List Candidate) :
    survivorsOf today (survivorsOf today cs) = survivorsOf today cs := by
  simp [survivorsOf, List.filter_filter]

/-- C2: primary discovery is insensitive to candidates whose parsed start
date lies strictly before today (classifying a candidate list and
classifying its survivors agree, so past candidates are excluded before
bucketing); but in search mode the mirror applies date filtering after all:
on two country-matched target-year rows of which the first is past, the
search-mode call (with no date argument) returns only the future event,
although the tier the unreachable no-filter branch of the source would pick
contains both.  The claim's second half contradicts the code; the dead
branch shows the filtering is a slip. -/
theorem past_filter_and_search_mode :
    (∀ (year : Nat) (country : String) (today : PyDate) (cs : List Candidate),
      classifyCandidates year country today cs =
        classifyCandidates year country today (survivorsOf today cs)) ∧
    (strContains (pyLower c2RowPast.rowText) (pyLower "Philippines") = true ∧
      extractDatesFromText c2RowPast.rowText = [⟨2026, 1, 1, 0, 0⟩] ∧
      dateLt (PyDT.dateOf ⟨2026, 1, 1, 0, 0⟩) c2Now = true ∧
      (fallbackCore [c2RowPast, c2RowFuture] 2026 "Philippines" none c2Now).map
        Event.id = ["2"] ∧
      (([c2RowPast, c2RowFuture].foldl (fallbackStep 2026 "Philippines" c2Now)
        ⟨[], [], [], [], []⟩).countryYearFound).map Prod.fst =
        ["https://smoothcomp.com/en/event/1", "https://smoothcomp.com/en/event/2"]) := by
  constructor
  · intro year country today cs
    rw [classify_eq, classify_eq]
    simp [bucketOfList, survivorsOf_idem]
  · refine ⟨by decide, by decide, by decide, by decide, by decide⟩

/-! ## Claim C3: the dedup key mismatch of the generic-table strategy -/

/-- C3: the merged competitor output can contain two records with the same
(name, division, match time, mat) field four-tuple: the generic-table
strategy registers the seen key with empty strings for undetected fields but
stores the record with the placeholder substituted, so a later strategy
producing the placeholder values afresh does not see its key as taken.  The
first-writer-wins discipline itself is respected (the earlier record is not
overridden); it is the no-duplicate invariant that the code breaks. -/
theorem dedup_duplicate_four_tuple :
    (fetchCompetitorsCore [c3Page]).map keyOf =
      [("Alice Santos", "TBD", "TBD", "TBD"),
       ("Alice Santos", "TBD", "TBD", "TBD")] ∧
    (fetchCompetitorsCore [c3Page]).length = 2 := by
  exact ⟨by decide, by decide⟩

/-! ## Claim C4: error containment at the core boundary -/

/-- C4 counterexample: a transport failure on the primary listing fetch
surfaces from event fetching, and from search by name, as an exception
value rather than as an empty list. -/
theorem transport_error_propagates :
    fetchEventsNet errNet 2026 "Philippines" ⟨2026, 1, 1⟩ = Except.error () ∧
    searchEventsByNameNet errNet "x" 2026 "Philippines" 10 ⟨2026, 1, 1⟩ =
      Except.error () :=
  ⟨rfl, rfl⟩

/-- C4 amended: resolution by URL, resolution by id, competitor extraction
and both hint detectors never surface an exception for any pattern of
transport failure (every failure becomes no event, an empty list or an
empty hint list); event discovery and search by name are the exceptions,
as the counterexample shows. -/
theorem error_containment_amended :
    (∀ (net : Net) (u c : String), (fetchEventByUrlNet net u c).isOk = true) ∧
    (∀ (net : Net) (eid c : String) (pages : List String),
      (fetchEventByIdNet net eid c pages).isOk = true) ∧
    (∀ (net : Net) (u : String), (fetchCompetitorsNet net u).isOk = true) ∧
    (∀ (net : Net) (u : String) (limit : Nat),
      (detectAffiliatesNet net u limit).isOk = true) ∧
    (∀ (net : Net) (u : String) (limit : Nat),
      (detectPeopleNet net u limit).isOk = true) := by
  refine ⟨?_, ?_, ?_, ?_, ?_⟩
  · intro net u c
    unfold fetchEventByUrlNet
    cases net.eventPage u <;> rfl
  · intro net eid c pages
    rfl
  · intro net u
    rfl
  · intro net u limit
    rfl
  · intro net u limit
    rfl

/-! ## Claim C5: search scoring and ranking -/

theorem length_filterMap_pos {α β : Type} (sc : α → Nat) (g : α → β) (l : List α) :
    (l.filterMap (fun a => if 0 < sc a then some (g a) else none)).length =
      (l.filter (fun a => 0 < sc a)).length := by
  induction l with
  | nil => rfl
  | cons a t ih =>
    by_cases hp : 0 < sc a <;>
      simp [List.filterMap_cons, List.filter_cons, hp, ih]

theorem searchRank_eq (events : List Event) (name_query : String) (year limit : Nat)
    (hq : ¬ normalizeName name_query = "") :
    searchRank events name_query year limit =
      ((pySort scoredLe (events.filterMap (fun e =>
        if 0 < scoreEvent (normalizeName name_query)
            (queryTokens (normalizeName name_query)) year e
        then some (scoreEvent (normalizeName name_query)
            (queryTokens (normalizeName name_query)) year e, e)
        else none))).take limit).map (fun p => p.2) := by
  have hqq : (normalizeName name_query == "") = false := beq_eq_false_iff_ne.2 hq
  unfold searchRank
  simp only [hqq, Bool.false_eq_true, if_false]

theorem scored_mem_shape (events : List Event) (q : String) (toks : List String)
    (year : Nat) (p : Nat × Event)
    (hp : p ∈ events.filterMap (fun e =>
      if 0 < scoreEvent q toks year e
      then some (scoreEvent q toks year e, e) else none)) :
    p.2 ∈ events ∧ p.1 = scoreEvent q toks year p.2 ∧ 0 < scoreEvent q toks year p.2 := by
  obtain ⟨a, ha, hfa⟩ := List.mem_filterMap.1 hp
  by_cases hsc : 0 < scoreEvent q toks year a
  · rw [if_pos hsc] at hfa
    obtain rfl : (scoreEvent q toks year a, a) = p := by simpa using hfa
    exact ⟨ha, rfl, hsc⟩
  · rw [if_neg hsc] at hfa
    exact absurd hfa (by simp)

/-- C5: for a non-empty normalized query, every search result is one of the
candidates and carries a positive score as computed by the scoring rule of
the source (exact match one thousand, query-in-name six hundred,
name-in-query two hundred and fifty, thirty per matching token, forty for a
literal year match); the results are ordered by descending score with ties
broken by start date then lower-cased name; the result count is the number
of positively scored candidates truncated to the limit; and concretely, for
the query Hyperfly Asian Open with year 2026, the candidate named exactly
Hyperfly Asian Open 2026 scores 730 against 30 for Hyper Open and is ranked
strictly before it. -/
theorem search_scoring (events : List Event) (name_query : String) (year limit : Nat)
    (hq : ¬ normalizeName name_query = "") :
    (∀ e ∈ searchRank events name_query year limit,
      e ∈ events ∧
      0 < scoreEvent (normalizeName name_query)
        (queryTokens (normalizeName name_query)) year e) ∧
    List.Pairwise
      (fun a b =>
        scoredLe
          (scoreEvent (normalizeName name_query)
            (queryTokens (normalizeName name_query)) year a, a)
          (scoreEvent (normalizeName name_query)
            (queryTokens (normalizeName name_query)) year b, b) = true)
      (searchRank events name_query year limit) ∧
    (searchRank events name_query year limit).length =
      min limit
        ((events.filter (fun e =>
          0 < scoreEvent (normalizeName name_query)
            (queryTokens (normalizeName name_query)) year e)).length) ∧
    scoreEvent (normalizeName "Hyperfly Asian Open")
      (queryTokens (normalizeName "Hyperfly Asian Open")) 2026 c5Hyperfly = 730 ∧
    scoreEvent (normalizeName "Hyperfly Asian Open")
      (queryTokens (normalizeName "Hyperfly Asian Open")) 2026 c5HyperOpen = 30 ∧
    searchRank [c5HyperOpen, c5Hyperfly] "Hyperfly Asian Open" 2026 10 =
      [c5Hyperfly, c5HyperOpen] := by
  rw [searchRank_eq events name_query year limit hq]
  refine ⟨?_, ?_, ?_, by decide, by decide, by decide⟩
  · intro e he
    obtain ⟨p, hp_take, hpe⟩ := List.mem_map.1 he
    have hp_sorted := List.mem_of_mem_take hp_take
    have hp_scored := ((pySort_perm scoredLe _).mem_iff).1 hp_sorted
    obtain ⟨hmem, _, hpos⟩ := scored_mem_shape events _ _ year p hp_scored
    rw [← hpe]
    exact ⟨hmem, hpos⟩
  · rw [List.pairwise_map]
    have hps := pySort_sorted scoredLe scoredLe_total scoredLe_trans
      (events.filterMap (fun e =>
        if 0 < scoreEvent (normalizeName name_query)
            (queryTokens (normalizeName name_query)) year e
        then some (scoreEvent (normalizeName name_query)
            (queryTokens (normalizeName name_query)) year e, e)
        else none))
    have htake := List.Pairwise.sublist (List.take_sublist limit _) hps
    refine htake.imp_of_mem ?_
    intro p q hp hq' hle
    have hp' := scored_mem_shape events _ _ year p
      (((pySort_perm scoredLe _).mem_iff).1 (List.mem_of_mem_take hp))
    have hq'' := scored_mem_shape events _ _ year q
      (((pySort_perm scoredLe _).mem_iff).1 (List.mem_of_mem_take hq'))
    have hp2 : p = (scoreEvent (normalizeName name_query)
        (queryTokens (normalizeName name_query)) year p.2, p.2) := by
      obtain ⟨_, h1, _⟩ := hp'
      obtain ⟨p1, p2⟩ := p
      simp only at h1
      simp [h1]
    have hq2 : q = (scoreEvent (normalizeName name_query)
        (queryTokens (normalizeName name_query)) year q.2, q.2) := by
      obtain ⟨_, h1, _⟩ := hq''
      obtain ⟨q1, q2⟩ := q
      simp only at h1
      simp [h1]
    rw [← hp2, ← hq2]
    exact hle
  · rw [List.length_map, List.length_take]
    congr 1
    rw [(pySort_perm scoredLe _).length_eq]
    exact length_filterMap_pos _ _ events

/-- Witness for C5 at the concrete query and candidate pair. -/
theorem search_scoring_witness :
    ¬ normalizeName "Hyperfly Asian Open" = "" ∧
    searchRank [c5HyperOpen, c5Hyperfly] "Hyperfly Asian Open" 2026 10 =
      [c5Hyperfly, c5HyperOpen] :=
  ⟨by decide,
    (search_scoring [c5HyperOpen, c5Hyperfly] "Hyperfly Asian Open" 2026 10
      (by decide)).2.2.2.2.2⟩

end Tournabot
